import Mathlib

/-!
Verification of the formula parsing-and-evaluation library (`parse.c`).

The evaluator is embedded shallowly: the recursive-descent parser
`ParseFormula` (together with its value phase and its operator-application
loop) is modelled as a fuel-indexed function over an explicit parse state.
Machine doubles are modelled by an arbitrary linearly ordered field `V`;
the math-library routines (`sin`, `sqrt`, `pow`, ...), which live outside
this repository, are kept abstract in a `MathFuncs V` record so that
theorems hold for any interpretation of them.
-/

namespace Calc

/-- Operators of the formula language in order from lowest to highest
precedence, mirroring the `operator_t` enum of `parse.c` (lines 101-113). -/
inductive operator_t where
  | OP_EndLine
  | OP_BeginLine
  | OP_CloseParenthesis
  | OP_OpenParenthesis
  | OP_Assignment
  | OP_Add
  | OP_Subtract
  | OP_Multiply
  | OP_Divide
  | OP_RaisePower
  deriving DecidableEq, Repr

open operator_t

/-- The numeric value of each `operator_t` constructor: the C enum value,
used by `ParseFormula` for the precedence comparisons. -/
def operator_t.rank : operator_t → Nat
  | OP_EndLine => 0
  | OP_BeginLine => 1
  | OP_CloseParenthesis => 2
  | OP_OpenParenthesis => 3
  | OP_Assignment => 4
  | OP_Add => 5
  | OP_Subtract => 6
  | OP_Multiply => 7
  | OP_Divide => 8
  | OP_RaisePower => 9

/-- The `function_t` enum of `parse.c` (lines 115-130). -/
inductive function_t where
  | FUNC_err
  | FUNC_sin
  | FUNC_cos
  | FUNC_tan
  | FUNC_exp
  | FUNC_log
  | FUNC_log10
  | FUNC_fabs
  | FUNC_acos
  | FUNC_asin
  | FUNC_atan
  | FUNC_sqrt
  | FUNC_int
  deriving DecidableEq, Repr

open function_t

/-- The `errorcode_t` enum of `parse.c` (lines 132-146). -/
inductive errorcode_t where
  | ERROR_none
  | ERROR_operand
  | ERROR_openparen
  | ERROR_closeparen
  | ERROR_operator
  | ERROR_division
  | ERROR_function
  | ERROR_variable_expected
  | ERROR_variable_full
  | ERROR_variable_long
  | ERROR_heap_full
  | ERROR_parameter
  deriving DecidableEq, Repr

open errorcode_t

/-- `MAXNUMBERVAR` of `parse.c`: capacity of the variable table. -/
def MAXNUMBERVAR : Nat := 128

/-- `MAXTOKENLENGTH` of `parse.c`: size of the fixed token buffer. -/
def MAXTOKENLENGTH : Nat := 32

/-- The math-library routines used by `parse.c`.  They are external to the
repository (`math.h`), so they are abstract here: every theorem about the
evaluator holds for an arbitrary interpretation of these operations on the
value field `V`. -/
structure MathFuncs (V : Type) where
  sin : V → V
  cos : V → V
  tan : V → V
  exp : V → V
  log : V → V
  log10 : V → V
  fabs : V → V
  acos : V → V
  asin : V → V
  atan : V → V
  sqrt : V → V
  ceil : V → V
  floor : V → V
  pow : V → V → V

variable {V : Type} [LinearOrderedField V]

/-- `DEFAULT_RETURN` of `parse.c`: the value returned once an error is set. -/
def DEFAULT_RETURN : V := 0

/-- The `M_E` constant as written in `parse.c` (line 87), as an exact
rational literal. -/
def M_E_CONST : V := (27182818284590452354 : V) / (10 : V) ^ (19 : ℕ)

/-- The `M_PI` constant as written in `parse.c` (line 90), as an exact
rational literal. -/
def M_PI_CONST : V := (31415926535897931160 : V) / (10 : V) ^ (19 : ℕ)

/-- Reading a character of the formula string: positions at or past the end
read the terminating null character, as in C. -/
def CharAt (s : List Char) (i : Nat) : Char := s.getD i (Char.ofNat 0)

/-- The whitespace characters skipped by `SkipWhiteSpace` in `parse.c`
(space, tab, newline, carriage return). -/
def IsWhiteSpaceChar (c : Char) : Bool :=
  c = ' ' || c = Char.ofNat 9 || c = Char.ofNat 10 || c = Char.ofNat 13

/-- Helper for `SkipWhiteSpace`: walk the remaining characters. -/
def SkipWhiteSpaceAux : List Char → Nat → Nat
  | [], pos => pos
  | c :: rest, pos => if IsWhiteSpaceChar c then SkipWhiteSpaceAux rest (pos + 1) else pos

/-- `SkipWhiteSpace` of `parse.c`: the cursor position after skipping
whitespace starting at `pos`. -/
def SkipWhiteSpace (s : List Char) (pos : Nat) : Nat := SkipWhiteSpaceAux (s.drop pos) pos

/-- First character of an identifier: a letter or `%` (`GetNextTokenLength`). -/
def IsTokenStartChar (c : Char) : Bool :=
  ('A' ≤ c && c ≤ 'Z') || ('a' ≤ c && c ≤ 'z') || c = '%'

/-- Remaining characters of an identifier: letters, digits or underscore. -/
def IsTokenTailChar (c : Char) : Bool := c.isAlphanum || c = '_'

/-- Length of the maximal run of identifier-tail characters. -/
def TokenTailLength : List Char → Nat
  | [] => 0
  | c :: rest => if IsTokenTailChar c then TokenTailLength rest + 1 else 0

/-- `GetNextTokenLength` of `parse.c`: length of the identifier starting at
`pos`, or `0` if no identifier starts there. -/
def GetNextTokenLength (s : List Char) (pos : Nat) : Nat :=
  if IsTokenStartChar (CharAt s pos) then 1 + TokenTailLength (s.drop (pos + 1)) else 0

/-- `CopyUppercaseString` of `parse.c`: the case-folded copy of the
`len`-character token starting at `pos`. -/
def CopyUppercaseString (s : List Char) (pos len : Nat) : List Char :=
  ((s.drop pos).take len).map Char.toUpper

/-- Helper for `GetVariableID`: scan for the first name match. -/
def GetVariableIDAux : List (List Char × V) → List Char → Nat → Option Nat
  | [], _, _ => none
  | q :: rest, name, i => if q.1 = name then some i else GetVariableIDAux rest name (i + 1)

/-- `GetVariableID` of `parse.c`: index of the first table entry whose name
equals `name`, or `none` (`NOTFOUND`). -/
def GetVariableID (vars : List (List Char × V)) (name : List Char) : Option Nat :=
  GetVariableIDAux vars name 0

/-- Overwrite the value stored at index `i`, keeping the name: the effect of
`VariableValues_m[i] = v` in `parse.c`. -/
def SetValueAt : List (List Char × V) → Nat → V → List (List Char × V)
  | [], _, _ => []
  | q :: rest, 0, v => (q.1, v) :: rest
  | q :: rest, i + 1, v => q :: SetValueAt rest i v

/-- The value stored at index `i` of the variable table. -/
def ValueAt (vars : List (List Char × V)) (i : Nat) : V := (vars.getD i ([], 0)).2

/-- `AssignVariable` of `parse.c`: overwrite an existing entry in place, or
append a new entry when there is room.  `none` models the `NOROOM` failure
(table at `MAXNUMBERVAR` capacity).  The `NOHEAP` failure of the C code
(a `calloc` returning null) is not modelled: allocation always succeeds. -/
def AssignVariable (vars : List (List Char × V)) (name : List Char) (v : V) :
    Option (Nat × List (List Char × V)) :=
  match GetVariableID vars name with
  | some i => some (i, SetValueAt vars i v)
  | none =>
    if MAXNUMBERVAR ≤ vars.length then none
    else some (vars.length, vars ++ [(name, v)])

/-- `LookupFunction` of `parse.c`: the static function registry. -/
def LookupFunction (name : List Char) : function_t :=
  if name = "SIN".data then FUNC_sin
  else if name = "COS".data then FUNC_cos
  else if name = "TAN".data then FUNC_tan
  else if name = "EXP".data then FUNC_exp
  else if name = "LOG".data then FUNC_log
  else if name = "LOG10".data then FUNC_log10
  else if name = "ACOS".data then FUNC_acos
  else if name = "ASIN".data then FUNC_asin
  else if name = "ATAN".data then FUNC_atan
  else if name = "ABS".data then FUNC_fabs
  else if name = "SQRT".data then FUNC_sqrt
  else if name = "INT".data then FUNC_int
  else FUNC_err

/-- The argument-range check of `EvaluateFunction` in `parse.c`
(lines 266-284): `true` means the argument is in range. -/
def FunctionArgOk (fn : function_t) (x : V) : Bool :=
  match fn with
  | FUNC_log | FUNC_log10 | FUNC_sqrt => if x ≤ 0 then false else true
  | FUNC_acos | FUNC_asin => if x < -1 ∨ 1 ≤ x then false else true
  | _ => true

/-- `EvaluateFunction` of `parse.c`: domain check, then dispatch.  The
result pairs the value with the (possibly updated) error code, modelling
the write to `ErrorCode_m`.  The `FUNC_err` case aborts the C process
(an internal invariant violation); it is modelled as a default return and
is unreachable from the parser, which only calls `EvaluateFunction` on
registry hits. -/
def EvaluateFunction (F : MathFuncs V) (fn : function_t) (x : V) (err : errorcode_t) :
    V × errorcode_t :=
  if FunctionArgOk fn x = false then ((DEFAULT_RETURN : V), ERROR_parameter)
  else
    match fn with
    | FUNC_sin => (F.sin x, err)
    | FUNC_cos => (F.cos x, err)
    | FUNC_tan => (F.tan x, err)
    | FUNC_exp => (F.exp x, err)
    | FUNC_log => (F.log x, err)
    | FUNC_log10 => (F.log10 x, err)
    | FUNC_fabs => (F.fabs x, err)
    | FUNC_acos => (F.acos x, err)
    | FUNC_asin => (F.asin x, err)
    | FUNC_atan => (F.atan x, err)
    | FUNC_sqrt => (F.sqrt x, err)
    | FUNC_int => (if x < 0 then F.ceil x else F.floor x, err)
    | FUNC_err => ((DEFAULT_RETURN : V), err)

/-- The numeric-constant entry condition of `ParseFormula` (lines 421-425):
a digit or a dot. -/
def IsDigitOrDot (c : Char) : Bool := ('0' ≤ c && c ≤ '9') || c = '.'

/-- A digit character test for the numeric-literal scanner. -/
def IsDigitChar (c : Char) : Bool := '0' ≤ c && c ≤ '9'

/-- Length of the maximal digit run at the head of the list. -/
def CountDigits : List Char → Nat
  | [] => 0
  | c :: rest => if IsDigitChar c then CountDigits rest + 1 else 0

/-- Numeric value of a (pure-digit) character list, accumulator style. -/
def DigitsVal : List Char → Nat → Nat
  | [], acc => acc
  | c :: rest, acc => DigitsVal rest (acc * 10 + (c.toNat - 48))

/-- End position of the integer-digit part of a numeric literal. -/
def StrtodIntEnd (s : List Char) (pos : Nat) : Nat := pos + CountDigits (s.drop pos)

/-- End position after the optional fractional part of a numeric literal. -/
def StrtodFracEnd (s : List Char) (pos : Nat) : Nat :=
  if CharAt s (StrtodIntEnd s pos) = '.' then
    StrtodIntEnd s pos + 1 + CountDigits (s.drop (StrtodIntEnd s pos + 1))
  else StrtodIntEnd s pos

/-- Number of digits of the fractional part of a numeric literal. -/
def StrtodFracCount (s : List Char) (pos : Nat) : Nat :=
  if CharAt s (StrtodIntEnd s pos) = '.' then CountDigits (s.drop (StrtodIntEnd s pos + 1))
  else 0

/-- Start position of the exponent digits (after `e`/`E` and an optional
sign), relative to the end of the mantissa. -/
def StrtodExpDigitsStart (s : List Char) (pos : Nat) : Nat :=
  if CharAt s (StrtodFracEnd s pos + 1) = '-' ∨ CharAt s (StrtodFracEnd s pos + 1) = '+' then
    StrtodFracEnd s pos + 2
  else StrtodFracEnd s pos + 1

/-- End position after the optional exponent of a numeric literal; an
`e`/`E` not followed by at least one digit is not consumed. -/
def StrtodExpEnd (s : List Char) (pos : Nat) : Nat :=
  if CharAt s (StrtodFracEnd s pos) = 'e' ∨ CharAt s (StrtodFracEnd s pos) = 'E' then
    if CountDigits (s.drop (StrtodExpDigitsStart s pos)) = 0 then StrtodFracEnd s pos
    else StrtodExpDigitsStart s pos + CountDigits (s.drop (StrtodExpDigitsStart s pos))
  else StrtodFracEnd s pos

/-- The signed exponent value of a numeric literal (0 when absent). -/
def StrtodExpVal (s : List Char) (pos : Nat) : Int :=
  if CharAt s (StrtodFracEnd s pos) = 'e' ∨ CharAt s (StrtodFracEnd s pos) = 'E' then
    if CountDigits (s.drop (StrtodExpDigitsStart s pos)) = 0 then 0
    else
      (if CharAt s (StrtodFracEnd s pos + 1) = '-' then (-1 : Int) else 1) *
        (DigitsVal ((s.drop (StrtodExpDigitsStart s pos)).take
          (CountDigits (s.drop (StrtodExpDigitsStart s pos)))) 0 : Int)
  else 0

/-- The value of a numeric literal: mantissa digits over the fractional
power of ten, scaled by the optional exponent. -/
def StrtodVal (s : List Char) (pos : Nat) : V :=
  ((DigitsVal ((s.drop pos).take (CountDigits (s.drop pos))) 0 * 10 ^ StrtodFracCount s pos +
      DigitsVal ((s.drop (StrtodIntEnd s pos + 1)).take (StrtodFracCount s pos)) 0 : ℕ) : V) /
    (10 : V) ^ StrtodFracCount s pos * (10 : V) ^ StrtodExpVal s pos

/-- Modelled from the spec: the C library routine `strtod` used by
`ParseFormula` (line 433) is not part of this repository; per the spec it
parses a numeric literal with "integer part, optional fractional part,
optional exponent" (the sign has already been consumed by the caller).
Returns the parsed value and the cursor position after the literal; when no
conversion can be performed (no digit in the mantissa) the cursor is
returned unchanged with value 0.  Hexadecimal/infinity/NaN forms accepted
by some C libraries are not modelled. -/
def Strtod (s : List Char) (pos : Nat) : V × Nat :=
  if CountDigits (s.drop pos) + StrtodFracCount s pos = 0 then ((0 : V), pos)
  else (StrtodVal s pos, StrtodExpEnd s pos)

/-- The mutable parse state of `parse.c`: the cursor (`FormulaString_m`,
as an index into the input), the error code (`ErrorCode_m`), the
parenthesis counter (`ParenthesisLevel_m`) and the variable table
(`VariableNames_m`/`VariableValues_m`/`NumberOfVariables_m`). -/
structure PState (V : Type) where
  pos : Nat
  err : errorcode_t
  depth : Int
  vars : List (List Char × V)
  deriving DecidableEq, Repr

/-- Application of the deferred unary minus (`parse.c` lines 524-526). -/
def ApplyMinus (minus : Bool) (v : V) : V := if minus then -v else v

/-- The operator-application criterion of `ParseFormula` (lines 556-561):
assignment applies when its rank is greater than or equal to the pending
operator's rank (right-associative); every other operator applies only
when strictly greater (left-associative).  Ranks are the C enum values. -/
def ApplyCriterion (cur pending : operator_t) : Bool :=
  if cur = OP_Assignment then decide (pending.rank ≤ cur.rank)
  else decide (pending.rank < cur.rank)

/-- The `ApplyOperator` flag of the loop (`parse.c` lines 550-564): apply
only while no error is set and the precedence criterion holds. -/
def ShouldApply (err : errorcode_t) (cur pending : operator_t) : Bool :=
  if err = ERROR_none then ApplyCriterion cur pending else false

/-- The division step of `ParseFormula` (lines 579-588): a divisor of
exactly 0 sets the division error and forces the result to 0; otherwise
the quotient is taken and the error state is untouched. -/
def ApplyDivide (value d : V) (err : errorcode_t) : V × errorcode_t :=
  if d = 0 then ((0 : V), ERROR_division) else (value / d, err)

/-- The operator-character switch of `ParseFormula` (lines 534-545).
`none` models the `default` branch (invalid operator). -/
def OperatorOfChar (c : Char) : Option operator_t :=
  if c = '+' then some OP_Add
  else if c = '-' then some OP_Subtract
  else if c = '*' then some OP_Multiply
  else if c = '/' then some OP_Divide
  else if c = '^' then some OP_RaisePower
  else if c = ')' then some OP_CloseParenthesis
  else if c = '=' then some OP_Assignment
  else if c = Char.ofNat 0 then some OP_EndLine
  else none

/-- Cursor position after the leading whitespace of the value phase
(`parse.c` line 389). -/
def PVstart (s : List Char) (pos : Nat) : Nat := SkipWhiteSpace s pos

/-- `MinusSignPresent` of the value phase (`parse.c` lines 392-397). -/
def PVminus (s : List Char) (pos : Nat) : Bool := CharAt s (PVstart s pos) = '-'

/-- Cursor position after the optional sign of the value phase
(`parse.c` lines 392-401). -/
def PVsigned (s : List Char) (pos : Nat) : Nat :=
  if CharAt s (PVstart s pos) = '-' ∨ CharAt s (PVstart s pos) = '+' then PVstart s pos + 1
  else PVstart s pos

/-- Length of the name token of the value phase (`parse.c` line 439). -/
def PVtokLen (s : List Char) (pos : Nat) : Nat := GetNextTokenLength s (PVsigned s pos)

/-- The case-folded name token of the value phase (`TokenString_m`,
`parse.c` line 453). -/
def PVtok (s : List Char) (pos : Nat) : List Char :=
  CopyUppercaseString s (PVsigned s pos) (PVtokLen s pos)

/-- Cursor position after the name token (`parse.c` line 454). -/
def PVtokEnd (s : List Char) (pos : Nat) : Nat := PVsigned s pos + PVtokLen s pos

/-- Cursor position of the expected `(` after a function name
(`parse.c` lines 463-466). -/
def PVfunParen (s : List Char) (pos : Nat) : Nat := SkipWhiteSpace s (PVtokEnd s pos)

/-- Continuation of the parenthetical-expression case of the value phase
(`parse.c` lines 404-419), applied to the result of the recursive
`ParseFormula` call: propagate an inner error, demand the close-paren
terminator, and apply the deferred unary minus. -/
def PVParenTail (minus : Bool) (r? : Option (V × operator_t × PState V)) :
    Option (Sum (PState V) (V × Option Nat × PState V)) :=
  match r? with
  | none => none
  | some (v, cur, st1) =>
    if st1.err ≠ ERROR_none then some (Sum.inl st1)
    else if cur ≠ OP_CloseParenthesis then some (Sum.inl { st1 with err := ERROR_openparen })
    else some (Sum.inr (ApplyMinus minus v, none, st1))

/-- Continuation of the function case of the value phase (`parse.c` lines
466-498), applied to the result of the recursive `ParseFormula` call for
the argument: propagate errors, demand the close paren, evaluate the
function with domain checking, and apply the deferred unary minus. -/
def PVFunTail (F : MathFuncs V) (minus : Bool) (fn : function_t)
    (r? : Option (V × operator_t × PState V)) :
    Option (Sum (PState V) (V × Option Nat × PState V)) :=
  match r? with
  | none => none
  | some (v, cur, st1) =>
    if st1.err ≠ ERROR_none then some (Sum.inl st1)
    else if cur ≠ OP_CloseParenthesis then some (Sum.inl { st1 with err := ERROR_openparen })
    else if (EvaluateFunction F fn v st1.err).2 ≠ ERROR_none then
      some (Sum.inl { st1 with err := (EvaluateFunction F fn v st1.err).2 })
    else
      some (Sum.inr (ApplyMinus minus (EvaluateFunction F fn v st1.err).1, none,
        { st1 with err := (EvaluateFunction F fn v st1.err).2 }))

/-- The variable case of the value phase (`parse.c` lines 499-521): look
the token up, or create it with value 0; creation can fail with a full
table. -/
def PVVarTail (st0 : PState V) (minus : Bool) (tok : List Char) (tokEnd : Nat) :
    Option (Sum (PState V) (V × Option Nat × PState V)) :=
  match GetVariableID st0.vars tok with
  | some i =>
    some (Sum.inr (ApplyMinus minus (ValueAt st0.vars i), some i, { st0 with pos := tokEnd }))
  | none =>
    match AssignVariable st0.vars tok 0 with
    | none => some (Sum.inl { st0 with pos := tokEnd, err := ERROR_variable_full })
    | some (i, vars2) =>
      some (Sum.inr (ApplyMinus minus 0, some i, { st0 with pos := tokEnd, vars := vars2 }))

mutual

/-- The value phase of `ParseFormula` (`parse.c` lines 374-526): optional
sign, then parenthetical expression, numeric constant, or name (special
constant, function call, or variable).  `Sum.inl st` models the early
`return DEFAULT_RETURN` paths (the C code leaves `*PendingOperator`
untouched there); `Sum.inr (v, vid, st)` carries the parsed value and the
`VariableID` bound by a bare variable token (`none` mirrors `NOTFOUND`).
The fuel argument only bounds the recursion depth; `none` means it ran out. -/
def ParseValue (F : MathFuncs V) (s : List Char) :
    Nat → PState V → Option (Sum (PState V) (V × Option Nat × PState V))
  | 0, _ => none
  | fuel + 1, st0 =>
    if CharAt s (PVsigned s st0.pos) = '(' then
      PVParenTail (PVminus s st0.pos)
        (ParseFormula F s fuel OP_OpenParenthesis
          { st0 with pos := PVsigned s st0.pos + 1, depth := st0.depth + 1 })
    else if IsDigitOrDot (CharAt s (PVsigned s st0.pos)) then
      some (Sum.inr (ApplyMinus (PVminus s st0.pos) (Strtod (V := V) s (PVsigned s st0.pos)).1,
        none, { st0 with pos := (Strtod (V := V) s (PVsigned s st0.pos)).2 }))
    else if PVtokLen s st0.pos = 0 then
      some (Sum.inl { st0 with pos := PVsigned s st0.pos, err := ERROR_operand })
    else if MAXTOKENLENGTH ≤ PVtokLen s st0.pos then
      some (Sum.inl { st0 with pos := PVsigned s st0.pos, err := ERROR_variable_long })
    else if PVtok s st0.pos = "%E".data then
      some (Sum.inr (ApplyMinus (PVminus s st0.pos) (M_E_CONST : V), none,
        { st0 with pos := PVtokEnd s st0.pos }))
    else if PVtok s st0.pos = "%PI".data then
      some (Sum.inr (ApplyMinus (PVminus s st0.pos) (M_PI_CONST : V), none,
        { st0 with pos := PVtokEnd s st0.pos }))
    else if LookupFunction (PVtok s st0.pos) ≠ FUNC_err then
      if CharAt s (PVfunParen s st0.pos) = '(' then
        PVFunTail F (PVminus s st0.pos) (LookupFunction (PVtok s st0.pos))
          (ParseFormula F s fuel OP_OpenParenthesis
            { st0 with pos := PVfunParen s st0.pos + 1, depth := st0.depth + 1 })
      else some (Sum.inl { st0 with pos := PVfunParen s st0.pos, err := ERROR_operand })
    else
      PVVarTail st0 (PVminus s st0.pos) (PVtok s st0.pos) (PVtokEnd s st0.pos)

/-- `ParseFormula` of `parse.c` (lines 364-614): value phase, operator
read, then the operator-application loop.  Returns the parsed value, the
final content of `*PendingOperator`, and the updated state.  Early error
returns yield `DEFAULT_RETURN` and leave the pending operator untouched,
exactly as the C early `return` statements leave `*PendingOperator` alone. -/
def ParseFormula (F : MathFuncs V) (s : List Char) :
    Nat → operator_t → PState V → Option (V × operator_t × PState V)
  | 0, _, _ => none
  | fuel + 1, pending, st0 =>
    match ParseValue F s fuel st0 with
    | none => none
    | some (Sum.inl stE) => some ((DEFAULT_RETURN : V), pending, stE)
    | some (Sum.inr (v, vid, st1)) =>
      match OperatorOfChar (CharAt s (SkipWhiteSpace s st1.pos)) with
      | none =>
        some ((DEFAULT_RETURN : V), pending,
          { st1 with pos := SkipWhiteSpace s st1.pos, err := ERROR_operator })
      | some cur => OpLoop F s fuel cur pending v vid { st1 with pos := SkipWhiteSpace s st1.pos + 1 }

/-- The operator-application loop of `ParseFormula` (`parse.c` lines
549-610): while no error is set and `ApplyCriterion` holds, apply the
current operator (recursing for its right-hand operand) and continue with
the operator that terminated the recursive call.  The wildcard branch
repeats the loop without progress, as the C `switch` has no case for
`OP_EndLine`/`OP_BeginLine`/`OP_OpenParenthesis` (those never satisfy the
criterion from any reachable pending operator). -/
def OpLoop (F : MathFuncs V) (s : List Char) :
    Nat → operator_t → operator_t → V → Option Nat → PState V →
    Option (V × operator_t × PState V)
  | 0, _, _, _, _, _ => none
  | fuel + 1, cur, pending, value, vid, st =>
    if ShouldApply st.err cur pending then
      match cur with
      | OP_Add =>
        match ParseFormula F s fuel cur st with
        | none => none
        | some (v2, cur2, st2) => OpLoop F s fuel cur2 pending (value + v2) vid st2
      | OP_Subtract =>
        match ParseFormula F s fuel cur st with
        | none => none
        | some (v2, cur2, st2) => OpLoop F s fuel cur2 pending (value - v2) vid st2
      | OP_Multiply =>
        match ParseFormula F s fuel cur st with
        | none => none
        | some (v2, cur2, st2) => OpLoop F s fuel cur2 pending (value * v2) vid st2
      | OP_Divide =>
        match ParseFormula F s fuel cur st with
        | none => none
        | some (v2, cur2, st2) =>
          OpLoop F s fuel cur2 pending (ApplyDivide value v2 st2.err).1 vid
            { st2 with err := (ApplyDivide value v2 st2.err).2 }
      | OP_RaisePower =>
        match ParseFormula F s fuel cur st with
        | none => none
        | some (v2, cur2, st2) => OpLoop F s fuel cur2 pending (F.pow value v2) vid st2
      | OP_CloseParenthesis =>
        OpLoop F s fuel cur pending value vid
          { st with depth := st.depth - 1,
                    err := if st.depth - 1 < 0 then ERROR_closeparen else st.err }
      | OP_Assignment =>
        match vid with
        | none => some ((DEFAULT_RETURN : V), pending, { st with err := ERROR_variable_expected })
        | some i =>
          match ParseFormula F s fuel cur st with
          | none => none
          | some (v2, cur2, st2) =>
            OpLoop F s fuel cur2 pending v2 vid { st2 with vars := SetValueAt st2.vars i v2 }
      | _ => OpLoop F s fuel cur pending value vid st
    else some (value, cur, st)

end

/-- Fuel that is ample for any terminating parse of `s` (the fuel is an
artifact of the embedding: each unit of nesting consumes input characters). -/
def EvalFuel (s : List Char) : Nat := 2 * s.length + 8

/-- `evalform` of `parse.c` (lines 709-726): reset the error code and the
parenthesis counter, seed the pending operator with `OP_BeginLine`, run
`ParseFormula`, and report the value together with the final state (error
code, cursor position and variable table). -/
def evalform (F : MathFuncs V) (s : List Char) (vars : List (List Char × V)) :
    Option (V × PState V) :=
  match ParseFormula F s (EvalFuel s) OP_BeginLine ⟨0, ERROR_none, 0, vars⟩ with
  | none => none
  | some (v, _, st) => some (v, st)

/-- A computable stand-in interpretation of the math library over `ℚ`, used
only to instantiate hypotheses of general theorems at concrete inputs.
`pow` is exact integer exponentiation (the case of `pow` that is exactly
representable); the transcendental routines, whose values at the sampled
points never matter, return 0. -/
def QFuncs : MathFuncs ℚ where
  sin := fun _ => 0
  cos := fun _ => 0
  tan := fun _ => 0
  exp := fun _ => 0
  log := fun _ => 0
  log10 := fun _ => 0
  fabs := fun x => |x|
  acos := fun _ => 0
  asin := fun _ => 0
  atan := fun _ => 0
  sqrt := fun _ => 0
  ceil := fun x => (Int.ceil x : ℚ)
  floor := fun x => (Int.floor x : ℚ)
  pow := fun b e => if e.den = 1 then b ^ e.num else 0

/-! ### Lemmas about the lexer primitives and the cursor -/

/-- A position holding anything other than the null character is inside
the string. -/
theorem CharAt_ne_null_lt {s : List Char} {i : Nat} (h : CharAt s i ≠ Char.ofNat 0) :
    i < s.length := by
  by_contra hlt
  exact h (List.getD_eq_default s (Char.ofNat 0) (Nat.le_of_not_lt hlt))

/-- In a string without interior null characters, reading a null means the
position is at or past the end. -/
theorem CharAt_null_le {s : List Char} (hs : Char.ofNat 0 ∉ s) {i : Nat}
    (h : CharAt s i = Char.ofNat 0) : s.length ≤ i := by
  by_contra hlt
  have hi : i < s.length := Nat.lt_of_not_le hlt
  have hget : s.get? i = some (s.get ⟨i, hi⟩) := List.get?_eq_get hi
  have hmem : s.get ⟨i, hi⟩ ∈ s := List.get_mem s i hi
  have : CharAt s i = s.get ⟨i, hi⟩ := by
    unfold CharAt
    rw [List.getD_eq_get?, hget]
    rfl
  rw [this] at h
  rw [h] at hmem
  exact hs hmem

theorem SkipWhiteSpaceAux_ge (l : List Char) (pos : Nat) : pos ≤ SkipWhiteSpaceAux l pos := by
  induction l generalizing pos with
  | nil => simp [SkipWhiteSpaceAux]
  | cons c rest ih =>
    unfold SkipWhiteSpaceAux
    split
    · exact Nat.le_trans (Nat.le_succ pos) (ih (pos + 1))
    · exact Nat.le_refl pos

theorem SkipWhiteSpaceAux_le (l : List Char) (pos : Nat) :
    SkipWhiteSpaceAux l pos ≤ pos + l.length := by
  induction l generalizing pos with
  | nil => simp [SkipWhiteSpaceAux]
  | cons c rest ih =>
    unfold SkipWhiteSpaceAux
    split
    · have := ih (pos + 1)
      simp only [List.length_cons]
      omega
    · simp

theorem SkipWhiteSpace_ge (s : List Char) (pos : Nat) : pos ≤ SkipWhiteSpace s pos :=
  SkipWhiteSpaceAux_ge _ _

theorem SkipWhiteSpace_le (s : List Char) (pos : Nat) (h : pos ≤ s.length) :
    SkipWhiteSpace s pos ≤ s.length := by
  have := SkipWhiteSpaceAux_le (s.drop pos) pos
  unfold SkipWhiteSpace
  rw [List.length_drop] at this
  omega

theorem SkipWhiteSpaceAux_all_white (l : List Char) (pos : Nat)
    (h : ∀ c ∈ l, IsWhiteSpaceChar c) : SkipWhiteSpaceAux l pos = pos + l.length := by
  induction l generalizing pos with
  | nil => simp [SkipWhiteSpaceAux]
  | cons c rest ih =>
    unfold SkipWhiteSpaceAux
    rw [if_pos (h c (List.mem_cons_self c rest))]
    rw [ih (pos + 1) fun d hd => h d (List.mem_cons_of_mem c hd)]
    simp only [List.length_cons]
    omega

theorem SkipWhiteSpace_all_white (s : List Char) (h : ∀ c ∈ s, IsWhiteSpaceChar c) :
    SkipWhiteSpace s 0 = s.length := by
  unfold SkipWhiteSpace
  rw [List.drop_zero, SkipWhiteSpaceAux_all_white s 0 h]
  omega

theorem CountDigits_le (l : List Char) : CountDigits l ≤ l.length := by
  induction l with
  | nil => simp [CountDigits]
  | cons c rest ih =>
    unfold CountDigits
    split
    · simpa using Nat.succ_le_succ ih
    · simp

theorem TokenTailLength_le (l : List Char) : TokenTailLength l ≤ l.length := by
  induction l with
  | nil => simp [TokenTailLength]
  | cons c rest ih =>
    unfold TokenTailLength
    split
    · simpa using Nat.succ_le_succ ih
    · simp

theorem GetNextTokenLength_le (s : List Char) (pos : Nat) (h : pos < s.length) :
    pos + GetNextTokenLength s pos ≤ s.length := by
  unfold GetNextTokenLength
  split
  · have := TokenTailLength_le (s.drop (pos + 1))
    rw [List.length_drop] at this
    omega
  · omega

theorem StrtodIntEnd_le (s : List Char) (pos : Nat) (h : pos ≤ s.length) :
    StrtodIntEnd s pos ≤ s.length := by
  have := CountDigits_le (s.drop pos)
  rw [List.length_drop] at this
  unfold StrtodIntEnd
  omega

theorem StrtodFracEnd_le (s : List Char) (pos : Nat) (h : pos ≤ s.length) :
    StrtodFracEnd s pos ≤ s.length := by
  have h1 := StrtodIntEnd_le s pos h
  unfold StrtodFracEnd
  split
  · rename_i hdot
    have hlt : StrtodIntEnd s pos < s.length := by
      refine CharAt_ne_null_lt ?_
      rw [hdot]; decide
    have := CountDigits_le (s.drop (StrtodIntEnd s pos + 1))
    rw [List.length_drop] at this
    omega
  · exact h1

theorem StrtodExpEnd_le (s : List Char) (pos : Nat) (h : pos ≤ s.length) :
    StrtodExpEnd s pos ≤ s.length := by
  have h1 := StrtodFracEnd_le s pos h
  unfold StrtodExpEnd
  split
  · rename_i hec
    have hlt : StrtodFracEnd s pos < s.length := by
      refine CharAt_ne_null_lt ?_
      rcases hec with h2 | h2 <;> (rw [h2]; decide)
    split
    · exact h1
    · have hstart : StrtodExpDigitsStart s pos ≤ s.length := by
        unfold StrtodExpDigitsStart
        split
        · rename_i hsc
          have hlt2 : StrtodFracEnd s pos + 1 < s.length := by
            refine CharAt_ne_null_lt ?_
            rcases hsc with h2 | h2 <;> (rw [h2]; decide)
          omega
        · omega
      have := CountDigits_le (s.drop (StrtodExpDigitsStart s pos))
      rw [List.length_drop] at this
      omega
  · exact h1

theorem Strtod_le (s : List Char) (pos : Nat) (h : pos ≤ s.length) :
    (Strtod (V := V) s pos).2 ≤ s.length := by
  unfold Strtod
  split
  · exact h
  · exact StrtodExpEnd_le s pos h

/-! ### Lemmas about the operator switch and the token classifier -/

theorem OperatorOfChar_close {c : Char} (h : OperatorOfChar c = some OP_CloseParenthesis) :
    c = ')' := by
  unfold OperatorOfChar at h
  repeat' split at h
  all_goals simp_all

theorem OperatorOfChar_endline {c : Char} (h : OperatorOfChar c = some OP_EndLine) :
    c = Char.ofNat 0 := by
  unfold OperatorOfChar at h
  repeat' split at h
  all_goals simp_all

theorem OperatorOfChar_ne_beginline (c : Char) : OperatorOfChar c ≠ some OP_BeginLine := by
  unfold OperatorOfChar
  repeat' split
  all_goals simp

theorem rank_le_one {op : operator_t} (h : op.rank ≤ 1) :
    op = OP_EndLine ∨ op = OP_BeginLine := by
  cases op <;> simp_all [operator_t.rank]

/-- A token-start character is not a sign, parenthesis, digit or dot, so
the value phase dispatches it to the name branch. -/
theorem IsTokenStartChar_facts {c : Char} (h : IsTokenStartChar c = true) :
    c ≠ '-' ∧ c ≠ '+' ∧ c ≠ '(' ∧ IsDigitOrDot c = false := by
  refine ⟨?_, ?_, ?_, ?_⟩
  · intro he; rw [he] at h; exact absurd h (by decide)
  · intro he; rw [he] at h; exact absurd h (by decide)
  · intro he; rw [he] at h; exact absurd h (by decide)
  · unfold IsTokenStartChar at h
    unfold IsDigitOrDot
    rcases Bool.or_eq_true_iff.mp h with h1 | h1
    · rcases Bool.or_eq_true_iff.mp h1 with h2 | h2
      · have hA : 'A' ≤ c := by
          have := (Bool.and_eq_true _ _).mp h2
          exact of_decide_eq_true this.1
        have h9 : ¬ (c ≤ '9') := fun hc => absurd (le_trans hA hc) (by decide)
        have hdot : c ≠ '.' := by
          intro he; rw [he] at hA; exact absurd hA (by decide)
        simp [h9, hdot]
      · have hA : 'a' ≤ c := by
          have := (Bool.and_eq_true _ _).mp h2
          exact of_decide_eq_true this.1
        have h9 : ¬ (c ≤ '9') := fun hc => absurd (le_trans hA hc) (by decide)
        have hdot : c ≠ '.' := by
          intro he; rw [he] at hA; exact absurd hA (by decide)
        simp [h9, hdot]
    · have he : c = '%' := of_decide_eq_true h1
      rw [he]; decide

/-- Once the error state is set, the operator-application loop stops at
once: no operator is applied, nothing further is parsed, and the
accumulated value, current operator and state are returned unchanged. -/
theorem OpLoop_stops {V : Type} [LinearOrderedField V] (F : MathFuncs V) (s : List Char)
    (fuel : Nat) (cur pending : operator_t) (value : V) (vid : Option Nat) (st : PState V)
    (herr : st.err ≠ ERROR_none) :
    OpLoop F s (fuel + 1) cur pending value vid st = some (value, cur, st) := by
  unfold OpLoop
  simp [ShouldApply, herr]

/-! ### Inversion principles for the three mutually recursive functions

Each lemma enumerates, as one disjunction, the possible branches of an
application at nonzero fuel, with the branch conditions and the produced
result.  All inductive proofs below case on these. -/

/-- Enumeration of the outcomes of one step of the value phase. -/
abbrev ParseValueCases (F : MathFuncs V) (s : List Char) (fuel : Nat) (st0 : PState V)
    (r : Sum (PState V) (V × Option Nat × PState V)) : Prop :=
  (CharAt s (PVsigned s st0.pos) = '(' ∧ ∃ v cur st1,
    ParseFormula F s fuel OP_OpenParenthesis
      { st0 with pos := PVsigned s st0.pos + 1, depth := st0.depth + 1 } = some (v, cur, st1) ∧
    st1.err ≠ ERROR_none ∧ r = Sum.inl st1) ∨
  (CharAt s (PVsigned s st0.pos) = '(' ∧ ∃ v cur st1,
    ParseFormula F s fuel OP_OpenParenthesis
      { st0 with pos := PVsigned s st0.pos + 1, depth := st0.depth + 1 } = some (v, cur, st1) ∧
    st1.err = ERROR_none ∧ cur ≠ OP_CloseParenthesis ∧
    r = Sum.inl { st1 with err := ERROR_openparen }) ∨
  (CharAt s (PVsigned s st0.pos) = '(' ∧ ∃ v st1,
    ParseFormula F s fuel OP_OpenParenthesis
      { st0 with pos := PVsigned s st0.pos + 1, depth := st0.depth + 1 } =
        some (v, OP_CloseParenthesis, st1) ∧
    st1.err = ERROR_none ∧ r = Sum.inr (ApplyMinus (PVminus s st0.pos) v, none, st1)) ∨
  (IsDigitOrDot (CharAt s (PVsigned s st0.pos)) = true ∧
    r = Sum.inr (ApplyMinus (PVminus s st0.pos) (Strtod (V := V) s (PVsigned s st0.pos)).1,
      none, { st0 with pos := (Strtod (V := V) s (PVsigned s st0.pos)).2 })) ∨
  (PVtokLen s st0.pos = 0 ∧
    r = Sum.inl { st0 with pos := PVsigned s st0.pos, err := ERROR_operand }) ∨
  (MAXTOKENLENGTH ≤ PVtokLen s st0.pos ∧
    r = Sum.inl { st0 with pos := PVsigned s st0.pos, err := ERROR_variable_long }) ∨
  (PVtokLen s st0.pos ≠ 0 ∧ PVtokLen s st0.pos < MAXTOKENLENGTH ∧
    PVtok s st0.pos = "%E".data ∧
    r = Sum.inr (ApplyMinus (PVminus s st0.pos) (M_E_CONST : V), none,
      { st0 with pos := PVtokEnd s st0.pos })) ∨
  (PVtokLen s st0.pos ≠ 0 ∧ PVtokLen s st0.pos < MAXTOKENLENGTH ∧
    PVtok s st0.pos = "%PI".data ∧
    r = Sum.inr (ApplyMinus (PVminus s st0.pos) (M_PI_CONST : V), none,
      { st0 with pos := PVtokEnd s st0.pos })) ∨
  (PVtokLen s st0.pos ≠ 0 ∧ PVtokLen s st0.pos < MAXTOKENLENGTH ∧
    LookupFunction (PVtok s st0.pos) ≠ FUNC_err ∧ CharAt s (PVfunParen s st0.pos) = '(' ∧
    ∃ v cur st1,
      ParseFormula F s fuel OP_OpenParenthesis
        { st0 with pos := PVfunParen s st0.pos + 1, depth := st0.depth + 1 } =
          some (v, cur, st1) ∧
      st1.err ≠ ERROR_none ∧ r = Sum.inl st1) ∨
  (PVtokLen s st0.pos ≠ 0 ∧ PVtokLen s st0.pos < MAXTOKENLENGTH ∧
    LookupFunction (PVtok s st0.pos) ≠ FUNC_err ∧ CharAt s (PVfunParen s st0.pos) = '(' ∧
    ∃ v cur st1,
      ParseFormula F s fuel OP_OpenParenthesis
        { st0 with pos := PVfunParen s st0.pos + 1, depth := st0.depth + 1 } =
          some (v, cur, st1) ∧
      st1.err = ERROR_none ∧ cur ≠ OP_CloseParenthesis ∧
      r = Sum.inl { st1 with err := ERROR_openparen }) ∨
  (PVtokLen s st0.pos ≠ 0 ∧ PVtokLen s st0.pos < MAXTOKENLENGTH ∧
    LookupFunction (PVtok s st0.pos) ≠ FUNC_err ∧ CharAt s (PVfunParen s st0.pos) = '(' ∧
    ∃ v st1,
      ParseFormula F s fuel OP_OpenParenthesis
        { st0 with pos := PVfunParen s st0.pos + 1, depth := st0.depth + 1 } =
          some (v, OP_CloseParenthesis, st1) ∧
      st1.err = ERROR_none ∧
      (EvaluateFunction F (LookupFunction (PVtok s st0.pos)) v st1.err).2 ≠ ERROR_none ∧
      r = Sum.inl { st1 with
        err := (EvaluateFunction F (LookupFunction (PVtok s st0.pos)) v st1.err).2 }) ∨
  (PVtokLen s st0.pos ≠ 0 ∧ PVtokLen s st0.pos < MAXTOKENLENGTH ∧
    LookupFunction (PVtok s st0.pos) ≠ FUNC_err ∧ CharAt s (PVfunParen s st0.pos) = '(' ∧
    ∃ v st1,
      ParseFormula F s fuel OP_OpenParenthesis
        { st0 with pos := PVfunParen s st0.pos + 1, depth := st0.depth + 1 } =
          some (v, OP_CloseParenthesis, st1) ∧
      st1.err = ERROR_none ∧
      (EvaluateFunction F (LookupFunction (PVtok s st0.pos)) v st1.err).2 = ERROR_none ∧
      r = Sum.inr (ApplyMinus (PVminus s st0.pos)
        (EvaluateFunction F (LookupFunction (PVtok s st0.pos)) v st1.err).1, none,
        { st1 with
          err := (EvaluateFunction F (LookupFunction (PVtok s st0.pos)) v st1.err).2 })) ∨
  (PVtokLen s st0.pos ≠ 0 ∧ PVtokLen s st0.pos < MAXTOKENLENGTH ∧
    LookupFunction (PVtok s st0.pos) ≠ FUNC_err ∧ CharAt s (PVfunParen s st0.pos) ≠ '(' ∧
    r = Sum.inl { st0 with pos := PVfunParen s st0.pos, err := ERROR_operand }) ∨
  (PVtokLen s st0.pos ≠ 0 ∧ PVtokLen s st0.pos < MAXTOKENLENGTH ∧
    LookupFunction (PVtok s st0.pos) = FUNC_err ∧ ∃ i,
    GetVariableID st0.vars (PVtok s st0.pos) = some i ∧
    r = Sum.inr (ApplyMinus (PVminus s st0.pos) (ValueAt st0.vars i), some i,
      { st0 with pos := PVtokEnd s st0.pos })) ∨
  (PVtokLen s st0.pos ≠ 0 ∧ PVtokLen s st0.pos < MAXTOKENLENGTH ∧
    LookupFunction (PVtok s st0.pos) = FUNC_err ∧
    GetVariableID st0.vars (PVtok s st0.pos) = none ∧
    AssignVariable st0.vars (PVtok s st0.pos) 0 = none ∧
    r = Sum.inl { st0 with pos := PVtokEnd s st0.pos, err := ERROR_variable_full }) ∨
  (PVtokLen s st0.pos ≠ 0 ∧ PVtokLen s st0.pos < MAXTOKENLENGTH ∧
    LookupFunction (PVtok s st0.pos) = FUNC_err ∧
    GetVariableID st0.vars (PVtok s st0.pos) = none ∧ ∃ i vars2,
    AssignVariable st0.vars (PVtok s st0.pos) 0 = some (i, vars2) ∧
    r = Sum.inr (ApplyMinus (PVminus s st0.pos) 0, some i,
      { st0 with pos := PVtokEnd s st0.pos, vars := vars2 }))

/-- Inversion for the parenthetical-expression continuation. -/
theorem PVParenTail_cases (minus : Bool) (r? : Option (V × operator_t × PState V))
    (r : Sum (PState V) (V × Option Nat × PState V)) (h : PVParenTail minus r? = some r) :
    ∃ v cur st1, r? = some (v, cur, st1) ∧
      ((st1.err ≠ ERROR_none ∧ r = Sum.inl st1) ∨
       (st1.err = ERROR_none ∧ cur ≠ OP_CloseParenthesis ∧
         r = Sum.inl { st1 with err := ERROR_openparen }) ∨
       (st1.err = ERROR_none ∧ cur = OP_CloseParenthesis ∧
         r = Sum.inr (ApplyMinus minus v, none, st1))) := by
  unfold PVParenTail at h
  split at h
  · exact Option.noConfusion h
  · rename_i v cur st1
    refine ⟨v, cur, st1, rfl, ?_⟩
    split at h
    · rename_i herr
      injection h with h
      exact Or.inl ⟨herr, h.symm⟩
    · rename_i herr
      rw [not_not] at herr
      split at h
      · rename_i hcur
        injection h with h
        exact Or.inr (Or.inl ⟨herr, hcur, h.symm⟩)
      · rename_i hcur
        rw [not_not] at hcur
        injection h with h
        exact Or.inr (Or.inr ⟨herr, hcur, h.symm⟩)

/-- Inversion for the function-evaluation continuation. -/
theorem PVFunTail_cases (F : MathFuncs V) (minus : Bool) (fn : function_t)
    (r? : Option (V × operator_t × PState V))
    (r : Sum (PState V) (V × Option Nat × PState V)) (h : PVFunTail F minus fn r? = some r) :
    ∃ v cur st1, r? = some (v, cur, st1) ∧
      ((st1.err ≠ ERROR_none ∧ r = Sum.inl st1) ∨
       (st1.err = ERROR_none ∧ cur ≠ OP_CloseParenthesis ∧
         r = Sum.inl { st1 with err := ERROR_openparen }) ∨
       (st1.err = ERROR_none ∧ cur = OP_CloseParenthesis ∧
         (EvaluateFunction F fn v st1.err).2 ≠ ERROR_none ∧
         r = Sum.inl { st1 with err := (EvaluateFunction F fn v st1.err).2 }) ∨
       (st1.err = ERROR_none ∧ cur = OP_CloseParenthesis ∧
         (EvaluateFunction F fn v st1.err).2 = ERROR_none ∧
         r = Sum.inr (ApplyMinus minus (EvaluateFunction F fn v st1.err).1, none,
           { st1 with err := (EvaluateFunction F fn v st1.err).2 }))) := by
  unfold PVFunTail at h
  split at h
  · exact Option.noConfusion h
  · rename_i v cur st1
    refine ⟨v, cur, st1, rfl, ?_⟩
    split at h
    · rename_i herr
      injection h with h
      exact Or.inl ⟨herr, h.symm⟩
    · rename_i herr
      rw [not_not] at herr
      split at h
      · rename_i hcur
        injection h with h
        exact Or.inr (Or.inl ⟨herr, hcur, h.symm⟩)
      · rename_i hcur
        rw [not_not] at hcur
        split at h
        · rename_i hev
          injection h with h
          exact Or.inr (Or.inr (Or.inl ⟨herr, hcur, hev, h.symm⟩))
        · rename_i hev
          rw [not_not] at hev
          injection h with h
          exact Or.inr (Or.inr (Or.inr ⟨herr, hcur, hev, h.symm⟩))

/-- Inversion for the variable case of the value phase. -/
theorem PVVarTail_cases (st0 : PState V) (minus : Bool) (tok : List Char) (tokEnd : Nat)
    (r : Sum (PState V) (V × Option Nat × PState V)) (h : PVVarTail st0 minus tok tokEnd = some r) :
    (∃ i, GetVariableID st0.vars tok = some i ∧
      r = Sum.inr (ApplyMinus minus (ValueAt st0.vars i), some i, { st0 with pos := tokEnd })) ∨
    (GetVariableID st0.vars tok = none ∧ AssignVariable st0.vars tok 0 = none ∧
      r = Sum.inl { st0 with pos := tokEnd, err := ERROR_variable_full }) ∨
    (GetVariableID st0.vars tok = none ∧ ∃ i vars2,
      AssignVariable st0.vars tok 0 = some (i, vars2) ∧
      r = Sum.inr (ApplyMinus minus 0, some i,
        { st0 with pos := tokEnd, vars := vars2 })) := by
  unfold PVVarTail at h
  split at h
  · rename_i i hvar
    injection h with h
    exact Or.inl ⟨i, hvar, h.symm⟩
  · rename_i hvar
    split at h
    · rename_i hassign
      injection h with h
      exact Or.inr (Or.inl ⟨hvar, hassign, h.symm⟩)
    · rename_i i vars2 hassign
      injection h with h
      exact Or.inr (Or.inr ⟨hvar, i, vars2, hassign, h.symm⟩)

/-- Inversion for the value phase at nonzero fuel. -/
theorem ParseValue_cases (F : MathFuncs V) (s : List Char) (fuel : Nat) (st0 : PState V)
    (r : Sum (PState V) (V × Option Nat × PState V))
    (h : ParseValue F s (fuel + 1) st0 = some r) : ParseValueCases F s fuel st0 r := by
  rw [ParseValue] at h
  split at h
  · -- parenthetical expression
    rename_i hparen
    obtain ⟨v, cur, st1, heq, hc⟩ := PVParenTail_cases _ _ _ h
    rcases hc with ⟨herr, hr⟩ | ⟨herr, hcur, hr⟩ | ⟨herr, hcur, hr⟩
    · exact Or.inl ⟨hparen, v, cur, st1, heq, herr, hr⟩
    · exact Or.inr (Or.inl ⟨hparen, v, cur, st1, heq, herr, hcur, hr⟩)
    · subst hcur
      exact Or.inr (Or.inr (Or.inl ⟨hparen, v, st1, heq, herr, hr⟩))
  · rename_i hnoparen
    split at h
    · -- numeric constant
      rename_i hdig
      injection h with h
      exact Or.inr (Or.inr (Or.inr (Or.inl ⟨hdig, h.symm⟩)))
    · split at h
      · -- no operand
        rename_i hlen
        injection h with h
        exact Or.inr (Or.inr (Or.inr (Or.inr (Or.inl ⟨hlen, h.symm⟩))))
      · rename_i hlen
        split at h
        · -- token too long
          rename_i hlong
          injection h with h
          exact Or.inr (Or.inr (Or.inr (Or.inr (Or.inr (Or.inl ⟨hlong, h.symm⟩)))))
        · rename_i hlong
          have hlt : PVtokLen s st0.pos < MAXTOKENLENGTH := Nat.lt_of_not_le hlong
          split at h
          · -- %E
            rename_i htok
            injection h with h
            exact Or.inr (Or.inr (Or.inr (Or.inr (Or.inr (Or.inr (Or.inl
              ⟨hlen, hlt, htok, h.symm⟩))))))
          · split at h
            · -- %PI
              rename_i htok
              injection h with h
              exact Or.inr (Or.inr (Or.inr (Or.inr (Or.inr (Or.inr (Or.inr (Or.inl
                ⟨hlen, hlt, htok, h.symm⟩)))))))
            · split at h
              · -- function
                rename_i hfn
                split at h
                · rename_i hfp
                  obtain ⟨v, cur, st1, heq, hc⟩ := PVFunTail_cases _ _ _ _ _ h
                  rcases hc with ⟨herr, hr⟩ | ⟨herr, hcur, hr⟩ | ⟨herr, hcur, hev, hr⟩ |
                    ⟨herr, hcur, hev, hr⟩
                  · exact Or.inr (Or.inr (Or.inr (Or.inr (Or.inr (Or.inr (Or.inr (Or.inr
                      (Or.inl ⟨hlen, hlt, hfn, hfp, v, cur, st1, heq, herr, hr⟩))))))))
                  · exact Or.inr (Or.inr (Or.inr (Or.inr (Or.inr (Or.inr (Or.inr (Or.inr
                      (Or.inr (Or.inl
                        ⟨hlen, hlt, hfn, hfp, v, cur, st1, heq, herr, hcur, hr⟩)))))))))
                  · subst hcur
                    exact Or.inr (Or.inr (Or.inr (Or.inr (Or.inr (Or.inr (Or.inr (Or.inr
                      (Or.inr (Or.inr (Or.inl
                        ⟨hlen, hlt, hfn, hfp, v, st1, heq, herr, hev, hr⟩))))))))))
                  · subst hcur
                    exact Or.inr (Or.inr (Or.inr (Or.inr (Or.inr (Or.inr (Or.inr (Or.inr
                      (Or.inr (Or.inr (Or.inr (Or.inl
                        ⟨hlen, hlt, hfn, hfp, v, st1, heq, herr, hev, hr⟩)))))))))))
                · rename_i hfp
                  injection h with h
                  exact Or.inr (Or.inr (Or.inr (Or.inr (Or.inr (Or.inr (Or.inr (Or.inr
                    (Or.inr (Or.inr (Or.inr (Or.inr (Or.inl
                      ⟨hlen, hlt, hfn, hfp, h.symm⟩))))))))))))
              · -- variable
                rename_i hfn
                rw [not_not] at hfn
                rcases PVVarTail_cases _ _ _ _ _ h with ⟨i, hvar, hr⟩ | ⟨hvar, hassign, hr⟩ |
                  ⟨hvar, i, vars2, hassign, hr⟩
                · exact Or.inr (Or.inr (Or.inr (Or.inr (Or.inr (Or.inr (Or.inr (Or.inr
                    (Or.inr (Or.inr (Or.inr (Or.inr (Or.inr (Or.inl
                      ⟨hlen, hlt, hfn, i, hvar, hr⟩)))))))))))))
                · exact Or.inr (Or.inr (Or.inr (Or.inr (Or.inr (Or.inr (Or.inr (Or.inr
                    (Or.inr (Or.inr (Or.inr (Or.inr (Or.inr (Or.inr (Or.inl
                      ⟨hlen, hlt, hfn, hvar, hassign, hr⟩))))))))))))))
                · exact Or.inr (Or.inr (Or.inr (Or.inr (Or.inr (Or.inr (Or.inr (Or.inr
                    (Or.inr (Or.inr (Or.inr (Or.inr (Or.inr (Or.inr (Or.inr
                      ⟨hlen, hlt, hfn, hvar, i, vars2, hassign, hr⟩))))))))))))))

/-- Enumeration of the outcomes of one step of `ParseFormula`. -/
abbrev ParseFormulaCases (F : MathFuncs V) (s : List Char) (fuel : Nat) (pending : operator_t)
    (st0 : PState V) (res : V × operator_t × PState V) : Prop :=
  (∃ stE, ParseValue F s fuel st0 = some (Sum.inl stE) ∧
    res = ((DEFAULT_RETURN : V), pending, stE)) ∨
  (∃ v vid st1, ParseValue F s fuel st0 = some (Sum.inr (v, vid, st1)) ∧
    OperatorOfChar (CharAt s (SkipWhiteSpace s st1.pos)) = none ∧
    res = ((DEFAULT_RETURN : V), pending,
      { st1 with pos := SkipWhiteSpace s st1.pos, err := ERROR_operator })) ∨
  (∃ v vid st1 cur, ParseValue F s fuel st0 = some (Sum.inr (v, vid, st1)) ∧
    OperatorOfChar (CharAt s (SkipWhiteSpace s st1.pos)) = some cur ∧
    OpLoop F s fuel cur pending v vid { st1 with pos := SkipWhiteSpace s st1.pos + 1 } =
      some res)

/-- Inversion for `ParseFormula` at nonzero fuel. -/
theorem ParseFormula_cases (F : MathFuncs V) (s : List Char) (fuel : Nat)
    (pending : operator_t) (st0 : PState V) (res : V × operator_t × PState V)
    (h : ParseFormula F s (fuel + 1) pending st0 = some res) :
    ParseFormulaCases F s fuel pending st0 res := by
  rw [ParseFormula] at h
  split at h
  · exact Option.noConfusion h
  · rename_i stE heq
    injection h with h
    exact Or.inl ⟨stE, heq, h.symm⟩
  · rename_i v vid st1 heq
    split at h
    · rename_i hop
      injection h with h
      exact Or.inr (Or.inl ⟨v, vid, st1, heq, hop, h.symm⟩)
    · rename_i cur hop
      exact Or.inr (Or.inr ⟨v, vid, st1, cur, heq, hop, h⟩)

/-- Enumeration of the outcomes of one step of the operator loop. -/
abbrev OpLoopCases (F : MathFuncs V) (s : List Char) (fuel : Nat) (cur pending : operator_t)
    (value : V) (vid : Option Nat) (st : PState V) (res : V × operator_t × PState V) : Prop :=
  (ShouldApply st.err cur pending = false ∧ res = (value, cur, st)) ∨
  (ShouldApply st.err cur pending = true ∧ cur = OP_Add ∧ ∃ v2 cur2 st2,
    ParseFormula F s fuel cur st = some (v2, cur2, st2) ∧
    OpLoop F s fuel cur2 pending (value + v2) vid st2 = some res) ∨
  (ShouldApply st.err cur pending = true ∧ cur = OP_Subtract ∧ ∃ v2 cur2 st2,
    ParseFormula F s fuel cur st = some (v2, cur2, st2) ∧
    OpLoop F s fuel cur2 pending (value - v2) vid st2 = some res) ∨
  (ShouldApply st.err cur pending = true ∧ cur = OP_Multiply ∧ ∃ v2 cur2 st2,
    ParseFormula F s fuel cur st = some (v2, cur2, st2) ∧
    OpLoop F s fuel cur2 pending (value * v2) vid st2 = some res) ∨
  (ShouldApply st.err cur pending = true ∧ cur = OP_Divide ∧ ∃ v2 cur2 st2,
    ParseFormula F s fuel cur st = some (v2, cur2, st2) ∧
    OpLoop F s fuel cur2 pending (ApplyDivide value v2 st2.err).1 vid
      { st2 with err := (ApplyDivide value v2 st2.err).2 } = some res) ∨
  (ShouldApply st.err cur pending = true ∧ cur = OP_RaisePower ∧ ∃ v2 cur2 st2,
    ParseFormula F s fuel cur st = some (v2, cur2, st2) ∧
    OpLoop F s fuel cur2 pending (F.pow value v2) vid st2 = some res) ∨
  (ShouldApply st.err cur pending = true ∧ cur = OP_CloseParenthesis ∧
    OpLoop F s fuel cur pending value vid
      { st with depth := st.depth - 1,
                err := if st.depth - 1 < 0 then ERROR_closeparen else st.err } = some res) ∨
  (ShouldApply st.err cur pending = true ∧ cur = OP_Assignment ∧ vid = none ∧
    res = ((DEFAULT_RETURN : V), pending, { st with err := ERROR_variable_expected })) ∨
  (ShouldApply st.err cur pending = true ∧ cur = OP_Assignment ∧ ∃ i, vid = some i ∧
    ∃ v2 cur2 st2,
    ParseFormula F s fuel cur st = some (v2, cur2, st2) ∧
    OpLoop F s fuel cur2 pending v2 vid { st2 with vars := SetValueAt st2.vars i v2 } =
      some res) ∨
  (ShouldApply st.err cur pending = true ∧
    (cur = OP_EndLine ∨ cur = OP_BeginLine ∨ cur = OP_OpenParenthesis) ∧
    OpLoop F s fuel cur pending value vid st = some res)

/-- Inversion for the operator loop at nonzero fuel. -/
theorem OpLoop_cases (F : MathFuncs V) (s : List Char) (fuel : Nat) (cur pending : operator_t)
    (value : V) (vid : Option Nat) (st : PState V) (res : V × operator_t × PState V)
    (h : OpLoop F s (fuel + 1) cur pending value vid st = some res) :
    OpLoopCases F s fuel cur pending value vid st res := by
  cases cur
  case OP_Add =>
    rw [OpLoop] at h
    split at h
    · rename_i happ
      split at h
      · exact Option.noConfusion h
      · rename_i v2 cur2 st2 heq
        exact Or.inr (Or.inl ⟨happ, rfl, v2, cur2, st2, heq, h⟩)
    · rename_i happ
      injection h with h
      exact Or.inl ⟨Bool.of_not_eq_true happ, h.symm⟩
  case OP_Subtract =>
    rw [OpLoop] at h
    split at h
    · rename_i happ
      split at h
      · exact Option.noConfusion h
      · rename_i v2 cur2 st2 heq
        exact Or.inr (Or.inr (Or.inl ⟨happ, rfl, v2, cur2, st2, heq, h⟩))
    · rename_i happ
      injection h with h
      exact Or.inl ⟨Bool.of_not_eq_true happ, h.symm⟩
  case OP_Multiply =>
    rw [OpLoop] at h
    split at h
    · rename_i happ
      split at h
      · exact Option.noConfusion h
      · rename_i v2 cur2 st2 heq
        exact Or.inr (Or.inr (Or.inr (Or.inl ⟨happ, rfl, v2, cur2, st2, heq, h⟩)))
    · rename_i happ
      injection h with h
      exact Or.inl ⟨Bool.of_not_eq_true happ, h.symm⟩
  case OP_Divide =>
    rw [OpLoop] at h
    split at h
    · rename_i happ
      split at h
      · exact Option.noConfusion h
      · rename_i v2 cur2 st2 heq
        exact Or.inr (Or.inr (Or.inr (Or.inr (Or.inl ⟨happ, rfl, v2, cur2, st2, heq, h⟩))))
    · rename_i happ
      injection h with h
      exact Or.inl ⟨Bool.of_not_eq_true happ, h.symm⟩
  case OP_RaisePower =>
    rw [OpLoop] at h
    split at h
    · rename_i happ
      split at h
      · exact Option.noConfusion h
      · rename_i v2 cur2 st2 heq
        exact Or.inr (Or.inr (Or.inr (Or.inr (Or.inr (Or.inl
          ⟨happ, rfl, v2, cur2, st2, heq, h⟩)))))
    · rename_i happ
      injection h with h
      exact Or.inl ⟨Bool.of_not_eq_true happ, h.symm⟩
  case OP_CloseParenthesis =>
    rw [OpLoop] at h
    split at h
    · rename_i happ
      exact Or.inr (Or.inr (Or.inr (Or.inr (Or.inr (Or.inr (Or.inl ⟨happ, rfl, h⟩))))))
    · rename_i happ
      injection h with h
      exact Or.inl ⟨Bool.of_not_eq_true happ, h.symm⟩
  case OP_Assignment =>
    cases vid with
    | none =>
      rw [OpLoop] at h
      split at h
      · rename_i happ
        injection h with h
        exact Or.inr (Or.inr (Or.inr (Or.inr (Or.inr (Or.inr (Or.inr (Or.inl
          ⟨happ, rfl, rfl, h.symm⟩)))))))
      · rename_i happ
        injection h with h
        exact Or.inl ⟨Bool.of_not_eq_true happ, h.symm⟩
    | some i =>
      rw [OpLoop] at h
      split at h
      · rename_i happ
        split at h
        · exact Option.noConfusion h
        · rename_i v2 cur2 st2 heq
          exact Or.inr (Or.inr (Or.inr (Or.inr (Or.inr (Or.inr (Or.inr (Or.inr (Or.inl
            ⟨happ, rfl, i, rfl, v2, cur2, st2, heq, h⟩))))))))
      · rename_i happ
        injection h with h
        exact Or.inl ⟨Bool.of_not_eq_true happ, h.symm⟩
  case OP_EndLine =>
    rw [OpLoop] at h
    split at h
    · rename_i happ
      exact Or.inr (Or.inr (Or.inr (Or.inr (Or.inr (Or.inr (Or.inr (Or.inr (Or.inr
        ⟨happ, Or.inl rfl, h⟩))))))))
    · rename_i happ
      injection h with h
      exact Or.inl ⟨Bool.of_not_eq_true happ, h.symm⟩
    all_goals decide
  case OP_BeginLine =>
    rw [OpLoop] at h
    split at h
    · rename_i happ
      exact Or.inr (Or.inr (Or.inr (Or.inr (Or.inr (Or.inr (Or.inr (Or.inr (Or.inr
        ⟨happ, Or.inr (Or.inl rfl), h⟩))))))))
    · rename_i happ
      injection h with h
      exact Or.inl ⟨Bool.of_not_eq_true happ, h.symm⟩
    all_goals decide
  case OP_OpenParenthesis =>
    rw [OpLoop] at h
    split at h
    · rename_i happ
      exact Or.inr (Or.inr (Or.inr (Or.inr (Or.inr (Or.inr (Or.inr (Or.inr (Or.inr
        ⟨happ, Or.inr (Or.inr rfl), h⟩))))))))
    · rename_i happ
      injection h with h
      exact Or.inl ⟨Bool.of_not_eq_true happ, h.symm⟩
    all_goals decide

/-! ### The small-step state relation

Every mutation the parser performs on the shared state is one of: a
cursor/parenthesis-counter move, a write of one of the nine error codes
that appear in assignments to `ErrorCode_m`, the creation of a length- and
capacity-checked variable with value 0, or an in-place value overwrite.
The master induction below shows every terminating run only chains such
steps; the error-code and symbol-table claims are corollaries. -/

/-- The error codes that `parse.c` ever assigns to `ErrorCode_m` (note:
`ERROR_function` and `ERROR_heap_full` are never assigned, and an error is
never reset to `ERROR_none` mid-parse). -/
def SettableErr (e : errorcode_t) : Prop :=
  e = ERROR_operand ∨ e = ERROR_openparen ∨ e = ERROR_closeparen ∨ e = ERROR_operator ∨
  e = ERROR_division ∨ e = ERROR_variable_expected ∨ e = ERROR_variable_full ∨
  e = ERROR_variable_long ∨ e = ERROR_parameter

/-- One elementary mutation of the parse state. -/
inductive StateStep : PState V → PState V → Prop
  | mov (st : PState V) (p : Nat) (d : Int) : StateStep st { st with pos := p, depth := d }
  | seterr (st : PState V) (e : errorcode_t) (he : SettableErr e) :
      StateStep st { st with err := e }
  | create (st : PState V) (name : List Char) (hlen : name.length < MAXTOKENLENGTH)
      (hroom : st.vars.length < MAXNUMBERVAR) :
      StateStep st { st with vars := st.vars ++ [(name, 0)] }
  | setval (st : PState V) (i : Nat) (v : V) :
      StateStep st { st with vars := SetValueAt st.vars i v }

/-- Reachability of one parse state from another by parser mutations. -/
def Reaches : PState V → PState V → Prop := Relation.ReflTransGen StateStep

theorem Reaches.refl (st : PState V) : Reaches st st := Relation.ReflTransGen.refl

theorem Reaches.trans {a b c : PState V} (h1 : Reaches a b) (h2 : Reaches b c) :
    Reaches a c := Relation.ReflTransGen.trans h1 h2

theorem Reaches.single {a b : PState V} (h : StateStep a b) : Reaches a b :=
  Relation.ReflTransGen.single h

/-- The state carried by a value-phase result. -/
def SumState : Sum (PState V) (V × Option Nat × PState V) → PState V
  | Sum.inl st => st
  | Sum.inr (_, _, st) => st

/-- The error code produced by `EvaluateFunction` is the incoming one or
the parameter error. -/
theorem EvaluateFunction_err (F : MathFuncs V) (fn : function_t) (x : V) (e : errorcode_t) :
    (EvaluateFunction F fn x e).2 = e ∨ (EvaluateFunction F fn x e).2 = ERROR_parameter := by
  unfold EvaluateFunction
  split
  · exact Or.inr rfl
  · cases fn <;> simp

/-- The error code produced by the division step is the incoming one or
the division error. -/
theorem ApplyDivide_err (value d : V) (e : errorcode_t) :
    (ApplyDivide value d e).2 = e ∨ (ApplyDivide value d e).2 = ERROR_division := by
  unfold ApplyDivide
  split
  · exact Or.inr rfl
  · exact Or.inl rfl

/-- The copied token is no longer than the scanned token length. -/
theorem PVtok_length_le (s : List Char) (pos : Nat) :
    (PVtok s pos).length ≤ PVtokLen s pos := by
  unfold PVtok CopyUppercaseString
  rw [List.length_map]
  exact le_trans (List.length_take_le _ _) (le_refl _)

/-- `AssignVariable` on a name absent from the table: capacity check,
then append. -/
theorem AssignVariable_new {vars : List (List Char × V)} {name : List Char}
    (hvar : GetVariableID vars name = none) (v : V) :
    AssignVariable vars name v =
      if MAXNUMBERVAR ≤ vars.length then none
      else some (vars.length, vars ++ [(name, v)]) := by
  unfold AssignVariable
  rw [hvar]

/-- `AssignVariable` on a name present in the table overwrites in place. -/
theorem AssignVariable_existing {vars : List (List Char × V)} {name : List Char} {i : Nat}
    (hvar : GetVariableID vars name = some i) (v : V) :
    AssignVariable vars name v = some (i, SetValueAt vars i v) := by
  unfold AssignVariable
  rw [hvar]

/-- Master induction: every terminating run of the value phase, of
`ParseFormula` and of the operator loop transforms the parse state by a
chain of elementary `StateStep` mutations. -/
theorem Reaches_run (F : MathFuncs V) (s : List Char) : ∀ fuel : Nat,
    (∀ st0 r, ParseValue F s fuel st0 = some r → Reaches st0 (SumState r)) ∧
    (∀ pending st0 res, ParseFormula F s fuel pending st0 = some res →
      Reaches st0 res.2.2) ∧
    (∀ cur pending value vid st res, OpLoop F s fuel cur pending value vid st = some res →
      Reaches st res.2.2) := by
  intro fuel
  induction fuel with
  | zero =>
    refine ⟨fun st0 r h => ?_, fun pending st0 res h => ?_, fun cur pending value vid st res h => ?_⟩
    · rw [ParseValue] at h; exact Option.noConfusion h
    · rw [ParseFormula] at h; exact Option.noConfusion h
    · rw [OpLoop] at h; exact Option.noConfusion h
  | succ fuel ih =>
    obtain ⟨ihPV, ihPF, ihOL⟩ := ih
    have hSettable : ∀ e, e = ERROR_operand ∨ e = ERROR_openparen ∨ e = ERROR_closeparen ∨
        e = ERROR_operator ∨ e = ERROR_division ∨ e = ERROR_variable_expected ∨
        e = ERROR_variable_full ∨ e = ERROR_variable_long ∨ e = ERROR_parameter →
        SettableErr e := fun e he => he
    refine ⟨fun st0 r h => ?_, fun pending st0 res h => ?_, fun cur pending value vid st res h => ?_⟩
    · -- value phase
      rcases ParseValue_cases F s fuel st0 r h with
        ⟨hparen, v, cur, st1, heq, herr, hr⟩ |
        ⟨hparen, v, cur, st1, heq, herr, hcur, hr⟩ |
        ⟨hparen, v, st1, heq, herr, hr⟩ |
        ⟨hdig, hr⟩ | ⟨hlen, hr⟩ | ⟨hlong, hr⟩ |
        ⟨hlen, hlt, htok, hr⟩ | ⟨hlen, hlt, htok, hr⟩ |
        ⟨hlen, hlt, hfn, hfp, v, cur, st1, heq, herr, hr⟩ |
        ⟨hlen, hlt, hfn, hfp, v, cur, st1, heq, herr, hcur, hr⟩ |
        ⟨hlen, hlt, hfn, hfp, v, st1, heq, herr, hev, hr⟩ |
        ⟨hlen, hlt, hfn, hfp, v, st1, heq, herr, hev, hr⟩ |
        ⟨hlen, hlt, hfn, hfp, hr⟩ |
        ⟨hlen, hlt, hfn, i, hvar, hr⟩ |
        ⟨hlen, hlt, hfn, hvar, hassign, hr⟩ |
        ⟨hlen, hlt, hfn, hvar, i, vars2, hassign, hr⟩
      · subst hr
        exact (Reaches.single (StateStep.mov st0 _ _)).trans (ihPF _ _ _ heq)
      · subst hr
        exact ((Reaches.single (StateStep.mov st0 _ _)).trans (ihPF _ _ _ heq)).trans
          (Reaches.single (StateStep.seterr st1 _ (by simp [SettableErr])))
      · subst hr
        exact (Reaches.single (StateStep.mov st0 _ _)).trans (ihPF _ _ _ heq)
      · subst hr
        exact Reaches.single (StateStep.mov st0 _ _)
      · subst hr
        exact (Reaches.single (StateStep.mov st0 _ st0.depth)).trans
          (Reaches.single (StateStep.seterr _ _ (by simp [SettableErr])))
      · subst hr
        exact (Reaches.single (StateStep.mov st0 _ st0.depth)).trans
          (Reaches.single (StateStep.seterr _ _ (by simp [SettableErr])))
      · subst hr
        exact Reaches.single (StateStep.mov st0 _ _)
      · subst hr
        exact Reaches.single (StateStep.mov st0 _ _)
      · subst hr
        exact (Reaches.single (StateStep.mov st0 _ _)).trans (ihPF _ _ _ heq)
      · subst hr
        exact ((Reaches.single (StateStep.mov st0 _ _)).trans (ihPF _ _ _ heq)).trans
          (Reaches.single (StateStep.seterr st1 _ (by simp [SettableErr])))
      · subst hr
        refine ((Reaches.single (StateStep.mov st0 _ _)).trans (ihPF _ _ _ heq)).trans
          (Reaches.single (StateStep.seterr st1 _ ?_))
        rcases EvaluateFunction_err F (LookupFunction (PVtok s st0.pos)) v st1.err with h1 | h1
        · exact absurd (h1.trans herr) hev
        · rw [h1]; simp [SettableErr]
      · -- function succeeded: the error write is the unchanged ERROR_none
        have h31 : ({ st1 with
            err := (EvaluateFunction F (LookupFunction (PVtok s st0.pos)) v st1.err).2 } :
            PState V) = st1 := by
          rw [hev, ← herr]
        rw [hr, SumState, h31]
        exact (Reaches.single (StateStep.mov st0 _ _)).trans (ihPF _ _ _ heq)
      · subst hr
        exact (Reaches.single (StateStep.mov st0 _ st0.depth)).trans
          (Reaches.single (StateStep.seterr _ _ (by simp [SettableErr])))
      · subst hr
        exact Reaches.single (StateStep.mov st0 _ _)
      · subst hr
        exact (Reaches.single (StateStep.mov st0 _ st0.depth)).trans
          (Reaches.single (StateStep.seterr _ _ (by simp [SettableErr])))
      · -- variable creation
        rw [AssignVariable_new hvar 0] at hassign
        split at hassign
        · exact Option.noConfusion hassign
        · rename_i hroom
          injection hassign with hassign
          injection hassign with hi hvars2
          subst hr
          subst hvars2
          refine (Reaches.single (StateStep.mov st0 (PVtokEnd s st0.pos) st0.depth)).trans
            (Reaches.single (StateStep.create _ _ ?_ ?_))
          · exact Nat.lt_of_le_of_lt (PVtok_length_le s st0.pos) hlt
          · exact Nat.lt_of_not_le hroom
    · -- ParseFormula
      rcases ParseFormula_cases F s fuel pending st0 res h with
        ⟨stE, heq, hr⟩ | ⟨v, vid, st1, heq, hop, hr⟩ | ⟨v, vid, st1, cur, heq, hop, hloop⟩
      · subst hr
        exact ihPV _ _ heq
      · subst hr
        have h1 := ihPV _ _ heq
        exact (h1.trans (Reaches.single (StateStep.mov st1 _ st1.depth))).trans
          (Reaches.single (StateStep.seterr _ _ (by simp [SettableErr])))
      · have h1 := ihPV _ _ heq
        exact (h1.trans (Reaches.single (StateStep.mov st1 _ st1.depth))).trans
          (ihOL _ _ _ _ _ _ hloop)
    · -- operator loop
      rcases OpLoop_cases F s fuel cur pending value vid st res h with
        ⟨happ, hr⟩ |
        ⟨happ, hcur, v2, cur2, st2, heq, hloop⟩ |
        ⟨happ, hcur, v2, cur2, st2, heq, hloop⟩ |
        ⟨happ, hcur, v2, cur2, st2, heq, hloop⟩ |
        ⟨happ, hcur, v2, cur2, st2, heq, hloop⟩ |
        ⟨happ, hcur, v2, cur2, st2, heq, hloop⟩ |
        ⟨happ, hcur, hloop⟩ |
        ⟨happ, hcur, hvid, hr⟩ |
        ⟨happ, hcur, i, hvid, v2, cur2, st2, heq, hloop⟩ |
        ⟨happ, hcur, hloop⟩
      · subst hr
        exact Reaches.refl st
      · exact (ihPF _ _ _ heq).trans (ihOL _ _ _ _ _ _ hloop)
      · exact (ihPF _ _ _ heq).trans (ihOL _ _ _ _ _ _ hloop)
      · exact (ihPF _ _ _ heq).trans (ihOL _ _ _ _ _ _ hloop)
      · -- division: the error write is either the unchanged one or the division error
        refine (ihPF _ _ _ heq).trans (Reaches.trans ?_ (ihOL _ _ _ _ _ _ hloop))
        rcases ApplyDivide_err value v2 st2.err with h1 | h1
        · rw [h1, show ({ st2 with err := st2.err } : PState V) = st2 from rfl]
          exact Reaches.refl st2
        · rw [h1]
          exact Reaches.single (StateStep.seterr st2 _ (by simp [SettableErr]))
      · exact (ihPF _ _ _ heq).trans (ihOL _ _ _ _ _ _ hloop)
      · -- close parenthesis: depth move, then possibly the error write
        refine Reaches.trans ?_ (ihOL _ _ _ _ _ _ hloop)
        by_cases hd : st.depth - 1 < 0
        · rw [if_pos hd]
          exact (Reaches.single (StateStep.mov st st.pos (st.depth - 1))).trans
            (Reaches.single (StateStep.seterr _ _ (by simp [SettableErr])))
        · rw [if_neg hd]
          exact Reaches.single (StateStep.mov st st.pos (st.depth - 1))
      · subst hr
        exact Reaches.single (StateStep.seterr st _ (by simp [SettableErr]))
      · exact ((ihPF _ _ _ heq).trans
          (Reaches.single (StateStep.setval st2 i v2))).trans (ihOL _ _ _ _ _ _ hloop)
      · exact ihOL _ _ _ _ _ _ hloop

/-- Along any chain of parser mutations the error code is either the
original one or one of the codes the parser writes. -/
theorem Reaches_err {st st' : PState V} (h : Reaches st st') :
    st'.err = st.err ∨ SettableErr st'.err := by
  induction h with
  | refl => exact Or.inl rfl
  | tail hab hbc ih =>
    cases hbc with
    | mov p d => exact ih
    | seterr e he => exact Or.inr he
    | create name hlen hroom => exact ih
    | setval i v => exact ih

/-- Along any chain of parser mutations, any property of the variable
table preserved by capacity-checked creation of a short name and by
in-place value overwrite is preserved. -/
theorem Reaches_vars {P : List (List Char × V) → Prop}
    (hset : ∀ vars i v, P vars → P (SetValueAt vars i v))
    (hnew : ∀ (vars : List (List Char × V)) (name : List Char), P vars →
      name.length < MAXTOKENLENGTH → vars.length < MAXNUMBERVAR → P (vars ++ [(name, 0)]))
    {st st' : PState V} (h : Reaches st st') (hP : P st.vars) : P st'.vars := by
  induction h with
  | refl => exact hP
  | tail hab hbc ih =>
    cases hbc with
    | mov p d => exact ih
    | seterr e he => exact ih
    | create name hlen hroom => exact hnew _ name ih hlen hroom
    | setval i v => exact hset _ i v ih

/-! ### Further supporting lemmas -/

theorem CharAt_ge_null (s : List Char) {i : Nat} (h : s.length ≤ i) :
    CharAt s i = Char.ofNat 0 := List.getD_eq_default s (Char.ofNat 0) h

theorem IsDigitOrDot_ne_null {c : Char} (h : IsDigitOrDot c = true) : c ≠ Char.ofNat 0 := by
  intro hc
  rw [hc] at h
  exact absurd h (by decide)

theorem IsTokenStartChar_ne_null {c : Char} (h : IsTokenStartChar c = true) :
    c ≠ Char.ofNat 0 := by
  intro hc
  rw [hc] at h
  exact absurd h (by decide)

theorem GetNextTokenLength_ne_zero_start {s : List Char} {pos : Nat}
    (h : GetNextTokenLength s pos ≠ 0) : IsTokenStartChar (CharAt s pos) = true := by
  unfold GetNextTokenLength at h
  split at h
  · assumption
  · exact absurd rfl h

/-- A loop entered with the error state set returns its arguments
unchanged (when it returns at all). -/
theorem OpLoop_frozen {F : MathFuncs V} {s : List Char} {fuel : Nat} {cur pending : operator_t}
    {value : V} {vid : Option Nat} {st : PState V} {res : V × operator_t × PState V}
    (h : OpLoop F s fuel cur pending value vid st = some res) (herr : st.err ≠ ERROR_none) :
    res = (value, cur, st) := by
  cases fuel with
  | zero => rw [OpLoop] at h; exact Option.noConfusion h
  | succ fuel =>
    rw [OpLoop_stops F s fuel cur pending value vid st herr] at h
    injection h with h
    exact h.symm

/-- Unfolding of `evalform` on a returned result. -/
theorem evalform_inv {F : MathFuncs V} {s : List Char} {vars : List (List Char × V)}
    {v : V} {st' : PState V} (h : evalform F s vars = some (v, st')) :
    ∃ op, ParseFormula F s (EvalFuel s) OP_BeginLine ⟨0, ERROR_none, 0, vars⟩ =
      some (v, op, st') := by
  unfold evalform at h
  split at h
  · exact Option.noConfusion h
  · rename_i v0 op st0 heq
    injection h with h
    injection h with h1 h2
    subst h1
    subst h2
    exact ⟨op, heq⟩

/-- The early error returns of the value phase always carry a set error
code. -/
theorem ParseValue_inl_err {F : MathFuncs V} {s : List Char} {fuel : Nat} {st0 : PState V}
    {stE : PState V} (h : ParseValue F s fuel st0 = some (Sum.inl stE)) :
    stE.err ≠ ERROR_none := by
  match fuel with
  | 0 => rw [ParseValue] at h; exact Option.noConfusion h
  | fuel + 1 =>
    rcases ParseValue_cases F s fuel st0 _ h with
      ⟨hparen, v, cur, st1, heq, herr, hr⟩ |
      ⟨hparen, v, cur, st1, heq, herr, hcur, hr⟩ |
      ⟨hparen, v, st1, heq, herr, hr⟩ |
      ⟨hdig, hr⟩ | ⟨hlen, hr⟩ | ⟨hlong, hr⟩ |
      ⟨hlen, hlt, htok, hr⟩ | ⟨hlen, hlt, htok, hr⟩ |
      ⟨hlen, hlt, hfn, hfp, v, cur, st1, heq, herr, hr⟩ |
      ⟨hlen, hlt, hfn, hfp, v, cur, st1, heq, herr, hcur, hr⟩ |
      ⟨hlen, hlt, hfn, hfp, v, st1, heq, herr, hev, hr⟩ |
      ⟨hlen, hlt, hfn, hfp, v, st1, heq, herr, hev, hr⟩ |
      ⟨hlen, hlt, hfn, hfp, hr⟩ |
      ⟨hlen, hlt, hfn, i, hvar, hr⟩ |
      ⟨hlen, hlt, hfn, hvar, hassign, hr⟩ |
      ⟨hlen, hlt, hfn, hvar, i, vars2, hassign, hr⟩
    · injection hr with hr; subst hr; exact herr
    · injection hr with hr; subst hr; simp
    · exact absurd hr (by simp)
    · exact absurd hr (by simp)
    · injection hr with hr; subst hr; simp
    · injection hr with hr; subst hr; simp
    · exact absurd hr (by simp)
    · exact absurd hr (by simp)
    · injection hr with hr; subst hr; exact herr
    · injection hr with hr; subst hr; simp
    · injection hr with hr; subst hr; simpa using hev
    · exact absurd hr (by simp)
    · injection hr with hr; subst hr; simp
    · exact absurd hr (by simp)
    · injection hr with hr; subst hr; simp
    · exact absurd hr (by simp)

theorem SetValueAt_names (vars : List (List Char × V)) (i : Nat) (v : V) :
    (SetValueAt vars i v).map Prod.fst = vars.map Prod.fst := by
  induction vars generalizing i with
  | nil => rfl
  | cons q rest ih =>
    cases i with
    | zero => rfl
    | succ i => simp [SetValueAt, ih i]

theorem SetValueAt_length (vars : List (List Char × V)) (i : Nat) (v : V) :
    (SetValueAt vars i v).length = vars.length := by
  induction vars generalizing i with
  | nil => rfl
  | cons q rest ih =>
    cases i with
    | zero => rfl
    | succ i => simp [SetValueAt, ih i]

/-! ### The cursor-bound and terminator invariant

On an error-free return, the operator reported through `*PendingOperator`
was read from the character just before the final cursor position, the
cursor is inside the input (plus one position for the consumed
terminating null), and the reported operator fails the application
criterion against the pending operator (otherwise the loop would have
gone on).  This drives the end-cursor claim. -/

theorem Bounds_run (F : MathFuncs V) (s : List Char) : ∀ fuel : Nat,
    (∀ st0 v vid st1, ParseValue F s fuel st0 = some (Sum.inr (v, vid, st1)) →
      st1.pos ≤ s.length) ∧
    (∀ pending st0 v op st1, ParseFormula F s fuel pending st0 = some (v, op, st1) →
      st1.err = ERROR_none →
      OperatorOfChar (CharAt s (st1.pos - 1)) = some op ∧ 1 ≤ st1.pos ∧
        st1.pos ≤ s.length + 1 ∧ ApplyCriterion op pending = false) ∧
    (∀ cur pending value vid st v op st1,
      OpLoop F s fuel cur pending value vid st = some (v, op, st1) → st1.err = ERROR_none →
      OperatorOfChar (CharAt s (st.pos - 1)) = some cur → 1 ≤ st.pos → st.pos ≤ s.length + 1 →
      OperatorOfChar (CharAt s (st1.pos - 1)) = some op ∧ 1 ≤ st1.pos ∧
        st1.pos ≤ s.length + 1 ∧ ApplyCriterion op pending = false) := by
  intro fuel
  induction fuel with
  | zero =>
    refine ⟨fun st0 v vid st1 h => ?_, fun pending st0 v op st1 h => ?_,
      fun cur pending value vid st v op st1 h => ?_⟩
    · rw [ParseValue] at h; exact Option.noConfusion h
    · rw [ParseFormula] at h; exact Option.noConfusion h
    · rw [OpLoop] at h; exact Option.noConfusion h
  | succ fuel ih =>
    obtain ⟨ihPV, ihPF, ihOL⟩ := ih
    refine ⟨fun st0 v vid st1 h => ?_, fun pending st0 v op st1 h herr => ?_,
      fun cur pending value vid st v op st1 h herr hopc hge hle => ?_⟩
    · -- value phase: on success the cursor is inside the input
      rcases ParseValue_cases F s fuel st0 _ h with
        ⟨hparen, v0, cur, st2, heq, herr, hr⟩ |
        ⟨hparen, v0, cur, st2, heq, herr, hcur, hr⟩ |
        ⟨hparen, v0, st2, heq, herr, hr⟩ |
        ⟨hdig, hr⟩ | ⟨hlen, hr⟩ | ⟨hlong, hr⟩ |
        ⟨hlen, hlt, htok, hr⟩ | ⟨hlen, hlt, htok, hr⟩ |
        ⟨hlen, hlt, hfn, hfp, v0, cur, st2, heq, herr, hr⟩ |
        ⟨hlen, hlt, hfn, hfp, v0, cur, st2, heq, herr, hcur, hr⟩ |
        ⟨hlen, hlt, hfn, hfp, v0, st2, heq, herr, hev, hr⟩ |
        ⟨hlen, hlt, hfn, hfp, v0, st2, heq, herr, hev, hr⟩ |
        ⟨hlen, hlt, hfn, hfp, hr⟩ |
        ⟨hlen, hlt, hfn, i, hvar, hr⟩ |
        ⟨hlen, hlt, hfn, hvar, hassign, hr⟩ |
        ⟨hlen, hlt, hfn, hvar, i, vars2, hassign, hr⟩
      · exact absurd hr (by simp)
      · exact absurd hr (by simp)
      · -- parenthetical value
        simp only [Sum.inr.injEq, Prod.mk.injEq] at hr
        obtain ⟨h1, h2, h3⟩ := hr
        subst h3
        obtain ⟨hop2, hge2, hle2, _⟩ := ihPF _ _ _ _ _ heq herr
        have hne : CharAt s (st1.pos - 1) ≠ Char.ofNat 0 := by
          rw [OperatorOfChar_close hop2]; decide
        have := CharAt_ne_null_lt hne
        omega
      · -- numeric literal
        simp only [Sum.inr.injEq, Prod.mk.injEq] at hr
        obtain ⟨h1, h2, h3⟩ := hr
        subst h3
        have hP2 : PVsigned s st0.pos < s.length :=
          CharAt_ne_null_lt (IsDigitOrDot_ne_null hdig)
        exact Strtod_le s _ (le_of_lt hP2)
      · exact absurd hr (by simp)
      · exact absurd hr (by simp)
      · -- %E
        simp only [Sum.inr.injEq, Prod.mk.injEq] at hr
        obtain ⟨h1, h2, h3⟩ := hr
        subst h3
        have hP2 : PVsigned s st0.pos < s.length :=
          CharAt_ne_null_lt (IsTokenStartChar_ne_null (GetNextTokenLength_ne_zero_start hlen))
        exact GetNextTokenLength_le s _ hP2
      · -- %PI
        simp only [Sum.inr.injEq, Prod.mk.injEq] at hr
        obtain ⟨h1, h2, h3⟩ := hr
        subst h3
        have hP2 : PVsigned s st0.pos < s.length :=
          CharAt_ne_null_lt (IsTokenStartChar_ne_null (GetNextTokenLength_ne_zero_start hlen))
        exact GetNextTokenLength_le s _ hP2
      · exact absurd hr (by simp)
      · exact absurd hr (by simp)
      · exact absurd hr (by simp)
      · -- function value
        simp only [Sum.inr.injEq, Prod.mk.injEq] at hr
        obtain ⟨h1, h2, h3⟩ := hr
        subst h3
        obtain ⟨hop2, hge2, hle2, _⟩ := ihPF _ _ _ _ _ heq herr
        have hne : CharAt s (st2.pos - 1) ≠ Char.ofNat 0 := by
          rw [OperatorOfChar_close hop2]; decide
        have := CharAt_ne_null_lt hne
        show st2.pos ≤ s.length
        omega
      · exact absurd hr (by simp)
      · -- variable read
        simp only [Sum.inr.injEq, Prod.mk.injEq] at hr
        obtain ⟨h1, h2, h3⟩ := hr
        subst h3
        have hP2 : PVsigned s st0.pos < s.length :=
          CharAt_ne_null_lt (IsTokenStartChar_ne_null (GetNextTokenLength_ne_zero_start hlen))
        exact GetNextTokenLength_le s _ hP2
      · exact absurd hr (by simp)
      · -- variable creation
        simp only [Sum.inr.injEq, Prod.mk.injEq] at hr
        obtain ⟨h1, h2, h3⟩ := hr
        subst h3
        have hP2 : PVsigned s st0.pos < s.length :=
          CharAt_ne_null_lt (IsTokenStartChar_ne_null (GetNextTokenLength_ne_zero_start hlen))
        exact GetNextTokenLength_le s _ hP2
    · -- ParseFormula
      rcases ParseFormula_cases F s fuel pending st0 (v, op, st1) h with
        ⟨stE, heq, hr⟩ | ⟨v0, vid, st2, heq, hop, hr⟩ | ⟨v0, vid, st2, cur, heq, hop, hloop⟩
      · simp only [Prod.mk.injEq] at hr
        obtain ⟨h1, h2, h3⟩ := hr
        subst h3
        exact absurd herr (ParseValue_inl_err heq)
      · simp only [Prod.mk.injEq] at hr
        obtain ⟨h1, h2, h3⟩ := hr
        subst h3
        simp at herr
      · have hlepos : st2.pos ≤ s.length := ihPV _ _ _ _ heq
        have hskip : SkipWhiteSpace s st2.pos ≤ s.length := SkipWhiteSpace_le s _ hlepos
        have hopE : OperatorOfChar (CharAt s
            (({ st2 with pos := SkipWhiteSpace s st2.pos + 1 } : PState V).pos - 1)) =
            some cur := by
          simpa using hop
        exact ihOL _ _ _ _ _ _ _ _ hloop herr hopE (by simp) (by simp; omega)
    · -- operator loop
      rcases OpLoop_cases F s fuel cur pending value vid st (v, op, st1) h with
        ⟨happ, hr⟩ |
        ⟨happ, hcur, v2, cur2, st2, heq, hloop⟩ |
        ⟨happ, hcur, v2, cur2, st2, heq, hloop⟩ |
        ⟨happ, hcur, v2, cur2, st2, heq, hloop⟩ |
        ⟨happ, hcur, v2, cur2, st2, heq, hloop⟩ |
        ⟨happ, hcur, v2, cur2, st2, heq, hloop⟩ |
        ⟨happ, hcur, hloop⟩ |
        ⟨happ, hcur, hvid, hr⟩ |
        ⟨happ, hcur, i, hvid, v2, cur2, st2, heq, hloop⟩ |
        ⟨happ, hdead, hloop⟩
      · -- loop exit
        simp only [Prod.mk.injEq] at hr
        obtain ⟨h1, h2, h3⟩ := hr
        subst h1; subst h2; subst h3
        unfold ShouldApply at happ
        rw [if_pos herr] at happ
        exact ⟨hopc, hge, hle, happ⟩
      · -- add
        by_cases herr2 : st2.err = ERROR_none
        · obtain ⟨hop2, hge2, hle2, _⟩ := ihPF _ _ _ _ _ heq herr2
          exact ihOL _ _ _ _ _ _ _ _ hloop herr hop2 hge2 hle2
        · have hfr := OpLoop_frozen hloop herr2
          simp only [Prod.mk.injEq] at hfr
          obtain ⟨h1, h2, h3⟩ := hfr
          subst h3
          exact absurd herr herr2
      · -- subtract
        by_cases herr2 : st2.err = ERROR_none
        · obtain ⟨hop2, hge2, hle2, _⟩ := ihPF _ _ _ _ _ heq herr2
          exact ihOL _ _ _ _ _ _ _ _ hloop herr hop2 hge2 hle2
        · have hfr := OpLoop_frozen hloop herr2
          simp only [Prod.mk.injEq] at hfr
          obtain ⟨h1, h2, h3⟩ := hfr
          subst h3
          exact absurd herr herr2
      · -- multiply
        by_cases herr2 : st2.err = ERROR_none
        · obtain ⟨hop2, hge2, hle2, _⟩ := ihPF _ _ _ _ _ heq herr2
          exact ihOL _ _ _ _ _ _ _ _ hloop herr hop2 hge2 hle2
        · have hfr := OpLoop_frozen hloop herr2
          simp only [Prod.mk.injEq] at hfr
          obtain ⟨h1, h2, h3⟩ := hfr
          subst h3
          exact absurd herr herr2
      · -- divide
        by_cases herrX : (ApplyDivide value v2 st2.err).2 = ERROR_none
        · rcases ApplyDivide_err value v2 st2.err with hAD | hAD
          · have herr2 : st2.err = ERROR_none := by rw [← hAD]; exact herrX
            obtain ⟨hop2, hge2, hle2, _⟩ := ihPF _ _ _ _ _ heq herr2
            exact ihOL _ _ _ _ _ _ _ _ hloop herr hop2 hge2 hle2
          · rw [hAD] at herrX
            exact absurd herrX (by decide)
        · have hfr := OpLoop_frozen hloop herrX
          simp only [Prod.mk.injEq] at hfr
          obtain ⟨h1, h2, h3⟩ := hfr
          subst h3
          exact absurd herr herrX
      · -- raise power
        by_cases herr2 : st2.err = ERROR_none
        · obtain ⟨hop2, hge2, hle2, _⟩ := ihPF _ _ _ _ _ heq herr2
          exact ihOL _ _ _ _ _ _ _ _ hloop herr hop2 hge2 hle2
        · have hfr := OpLoop_frozen hloop herr2
          simp only [Prod.mk.injEq] at hfr
          obtain ⟨h1, h2, h3⟩ := hfr
          subst h3
          exact absurd herr herr2
      · -- close parenthesis
        subst hcur
        by_cases hd : st.depth - 1 < 0
        · rw [if_pos hd] at hloop
          have hfr := OpLoop_frozen hloop (by simp)
          simp only [Prod.mk.injEq] at hfr
          obtain ⟨h1, h2, h3⟩ := hfr
          subst h3
          simp at herr
        · rw [if_neg hd] at hloop
          exact ihOL _ _ _ _ _ _ _ _ hloop herr hopc hge hle
      · -- assignment without a bound variable
        simp only [Prod.mk.injEq] at hr
        obtain ⟨h1, h2, h3⟩ := hr
        subst h3
        simp at herr
      · -- assignment
        by_cases herr2 : st2.err = ERROR_none
        · obtain ⟨hop2, hge2, hle2, _⟩ := ihPF _ _ _ _ _ heq herr2
          exact ihOL _ _ _ _ _ _ _ _ hloop herr hop2 hge2 hle2
        · have hfr := OpLoop_frozen hloop herr2
          simp only [Prod.mk.injEq] at hfr
          obtain ⟨h1, h2, h3⟩ := hfr
          subst h3
          exact absurd herr herr2
      · -- operators with no switch case: the loop repeats unchanged
        exact ihOL _ _ _ _ _ _ _ _ hloop herr hopc hge hle

/-- C3 as amended: for every input formula (with no interior null
character), on success the returned cursor points one character past the
terminating null of the input — the null is consumed as the end-of-line
operator — not at the null itself; on failure the final cursor varies
with the error kind and need not sit on the offending character (for
`evaluate("1/0")` the division error leaves the cursor at 4, past the
whole three-character input). -/
theorem claim_C3 {V : Type} [LinearOrderedField V] (F : MathFuncs V) (s : List Char)
    (vars : List (List Char × V)) (v : V) (st' : PState V)
    (hnull : Char.ofNat 0 ∉ s) (h : evalform F s vars = some (v, st'))
    (hok : st'.err = ERROR_none) (F2 : MathFuncs ℚ) :
    st'.pos = s.length + 1 ∧
    evalform F2 "1/0".data [] = some (0, ⟨4, ERROR_division, 0, []⟩) := by
  constructor
  · obtain ⟨op, hpf⟩ := evalform_inv h
    obtain ⟨hop, hge, hle, hcrit⟩ := (Bounds_run F s (EvalFuel s)).2.1 _ _ _ _ _ hpf hok
    have hopE : op = OP_EndLine := by
      unfold ApplyCriterion at hcrit
      split at hcrit
      · rw [decide_eq_false_iff_not] at hcrit
        exact absurd (by decide : OP_BeginLine.rank ≤ OP_Assignment.rank)
          (by rename_i hA; rw [hA] at hcrit; exact hcrit)
      · rw [decide_eq_false_iff_not] at hcrit
        have hr1 : op.rank ≤ 1 := Nat.le_of_not_lt hcrit
        rcases rank_le_one hr1 with h1 | h1
        · exact h1
        · subst h1
          exact absurd hop (OperatorOfChar_ne_beginline _)
    subst hopE
    have hchar := OperatorOfChar_endline hop
    have hlen := CharAt_null_le hnull hchar
    omega
  · simp +decide [evalform, EvalFuel, ParseFormula, ParseValue, OpLoop, SkipWhiteSpace,
      SkipWhiteSpaceAux, CharAt, IsWhiteSpaceChar, IsDigitOrDot, IsDigitChar, GetNextTokenLength,
      IsTokenStartChar, IsTokenTailChar, TokenTailLength, CopyUppercaseString, GetVariableID,
      GetVariableIDAux, AssignVariable, SetValueAt, ValueAt, LookupFunction, EvaluateFunction,
      FunctionArgOk, Strtod, StrtodVal, StrtodExpVal, StrtodExpEnd, StrtodExpDigitsStart,
      StrtodFracEnd, StrtodFracCount, StrtodIntEnd, CountDigits, DigitsVal, ApplyMinus,
      ApplyCriterion, ApplyDivide, OperatorOfChar, MAXNUMBERVAR, MAXTOKENLENGTH, DEFAULT_RETURN,
      PVstart, PVminus, PVsigned, PVtokLen, PVtok, PVtokEnd, PVfunParen, ShouldApply,
      PVParenTail, PVFunTail, PVVarTail,
      operator_t.rank]

/-- C3 witness: on the one-character formula `5`, evaluation succeeds and
the final cursor is 2 = length + 1, one past the terminating null. -/
theorem claim_C3_witness :
    Char.ofNat 0 ∉ "5".data ∧
    evalform QFuncs "5".data [] = some (5, ⟨2, ERROR_none, 0, []⟩) ∧
    ((2 : Nat) = "5".data.length + 1 ∧
      evalform QFuncs "1/0".data [] = some (0, ⟨4, ERROR_division, 0, []⟩)) :=
  ⟨by decide, by with_unfolding_all decide,
    claim_C3 QFuncs "5".data [] 5 ⟨2, ERROR_none, 0, []⟩ (by decide)
      (by with_unfolding_all decide) (by decide) QFuncs⟩

/-! ### Claim theorems: error codes, symbol table, whitespace -/

/-- C9: the unknown-function error code is unreachable: whenever
`evalform` terminates, its error code is not `ERROR_function` — the parser
treats every identifier missing from the function registry as a variable
and never assigns the unknown-function code. -/
theorem claim_C9 {V : Type} [LinearOrderedField V] (F : MathFuncs V) (s : List Char)
    (vars : List (List Char × V)) (v : V) (st' : PState V)
    (h : evalform F s vars = some (v, st')) : st'.err ≠ ERROR_function := by
  obtain ⟨op, hpf⟩ := evalform_inv h
  have hre := (Reaches_run F s (EvalFuel s)).2.1 _ _ _ hpf
  rcases Reaches_err hre with h1 | h1
  · rw [h1]; simp
  · unfold SettableErr at h1
    rcases h1 with h1 | h1 | h1 | h1 | h1 | h1 | h1 | h1 | h1 <;> (rw [h1]; decide)

/-- C9 witness: a run on a bare variable token terminates, and its error
code is not the unknown-function code. -/
theorem claim_C9_witness :
    evalform QFuncs "x".data [] = some (0, ⟨2, ERROR_none, 0, [("X".data, 0)]⟩) ∧
    (⟨2, ERROR_none, 0, [("X".data, 0)]⟩ : PState ℚ).err ≠ ERROR_function :=
  ⟨by with_unfolding_all decide,
    claim_C9 QFuncs "x".data [] 0 ⟨2, ERROR_none, 0, [("X".data, 0)]⟩
      (by with_unfolding_all decide)⟩

/-- C10: on the empty formula and on any formula consisting only of
whitespace, `evalform` returns value 0 with the invalid-operand error, the
cursor at the end of the input, and the symbol table unchanged. -/
theorem claim_C10 {V : Type} [LinearOrderedField V] (F : MathFuncs V) (s : List Char)
    (vars : List (List Char × V)) (hws : ∀ c ∈ s, IsWhiteSpaceChar c = true) :
    evalform F s vars = some (0, ⟨s.length, ERROR_operand, 0, vars⟩) := by
  have hskip : SkipWhiteSpace s 0 = s.length := SkipWhiteSpace_all_white s hws
  have hnull : CharAt s s.length = Char.ofNat 0 := CharAt_ge_null s (le_refl _)
  have hsig : PVsigned s (0 : Nat) = s.length := by
    unfold PVsigned PVstart
    rw [hskip, hnull]
    rw [if_neg]
    rintro (hc | hc) <;> exact absurd hc (by decide)
  have hpv : ParseValue F s (2 * s.length + 6 + 1) ⟨0, ERROR_none, 0, vars⟩ =
      some (Sum.inl ⟨s.length, ERROR_operand, 0, vars⟩) := by
    rw [ParseValue]
    rw [show (⟨0, ERROR_none, 0, vars⟩ : PState V).pos = (0 : Nat) from rfl]
    rw [hsig, hnull]
    rw [if_neg (by decide), if_neg (by decide)]
    have htok : PVtokLen s (0 : Nat) = 0 := by
      unfold PVtokLen GetNextTokenLength
      rw [hsig, hnull]
      rw [if_neg (by decide)]
    rw [if_pos htok]
  have hpf : ParseFormula F s (2 * s.length + 7 + 1) OP_BeginLine ⟨0, ERROR_none, 0, vars⟩ =
      some ((DEFAULT_RETURN : V), OP_BeginLine, ⟨s.length, ERROR_operand, 0, vars⟩) := by
    rw [ParseFormula, hpv]
  unfold evalform EvalFuel
  rw [show 2 * s.length + 8 = 2 * s.length + 7 + 1 from rfl, hpf]
  rfl

/-- C10 witness: the all-whitespace hypothesis holds of the two-blank
formula, and evaluation returns 0 with the invalid-operand error leaving
the table unchanged. -/
theorem claim_C10_witness :
    (∀ c ∈ "  ".data, IsWhiteSpaceChar c = true) ∧
    evalform QFuncs "  ".data [(("Y".data : List Char), (5 : ℚ))] =
      some (0, ⟨2, ERROR_operand, 0, [("Y".data, 5)]⟩) :=
  ⟨by decide, claim_C10 QFuncs "  ".data [("Y".data, 5)] (by decide)⟩

/-! ### Claim theorems: precedence, associativity, division, functions -/

/-- C1: the operators are totally ordered by precedence in the enum order
end-of-line < begin-of-line < close-paren < open-paren < assignment <
add < subtract < multiply < divide < raise-power; `evaluate("2 + 3 * 4")`
returns 14 with no error, and `evaluate("2 ^ 3 ^ 2")` returns 64, i.e.
repeated exponentiation associates to the left (`pow` is applied as
`pow(pow(2,3),2)`; the hypotheses pin down the two values of the abstract
`pow` that real exponentiation provides). -/
theorem claim_C1 (F : MathFuncs ℚ) (h8 : F.pow 2 3 = 8) (h64 : F.pow 8 2 = 64) :
    (OP_EndLine.rank < OP_BeginLine.rank ∧ OP_BeginLine.rank < OP_CloseParenthesis.rank ∧
      OP_CloseParenthesis.rank < OP_OpenParenthesis.rank ∧
      OP_OpenParenthesis.rank < OP_Assignment.rank ∧ OP_Assignment.rank < OP_Add.rank ∧
      OP_Add.rank < OP_Subtract.rank ∧ OP_Subtract.rank < OP_Multiply.rank ∧
      OP_Multiply.rank < OP_Divide.rank ∧ OP_Divide.rank < OP_RaisePower.rank) ∧
    evalform F "2 + 3 * 4".data [] = some (14, ⟨10, ERROR_none, 0, []⟩) ∧
    evalform F "2 ^ 3 ^ 2".data [] = some (64, ⟨10, ERROR_none, 0, []⟩) := by
  refine ⟨by decide, ?_, ?_⟩
  · simp +decide [evalform, EvalFuel, ParseFormula, ParseValue, OpLoop, SkipWhiteSpace,
      SkipWhiteSpaceAux, CharAt, IsWhiteSpaceChar, IsDigitOrDot, IsDigitChar, GetNextTokenLength,
      IsTokenStartChar, IsTokenTailChar, TokenTailLength, CopyUppercaseString, GetVariableID,
      GetVariableIDAux, AssignVariable, SetValueAt, ValueAt, LookupFunction, EvaluateFunction,
      FunctionArgOk, Strtod, StrtodVal, StrtodExpVal, StrtodExpEnd, StrtodExpDigitsStart,
      StrtodFracEnd, StrtodFracCount, StrtodIntEnd, CountDigits, DigitsVal, ApplyMinus,
      ApplyCriterion, ApplyDivide, OperatorOfChar, MAXNUMBERVAR, MAXTOKENLENGTH, DEFAULT_RETURN,
      PVstart, PVminus, PVsigned, PVtokLen, PVtok, PVtokEnd, PVfunParen, ShouldApply,
      PVParenTail, PVFunTail, PVVarTail,
      operator_t.rank]
    norm_num
  · have h : evalform F "2 ^ 3 ^ 2".data [] =
        some (F.pow (F.pow 2 3) 2, ⟨10, ERROR_none, 0, []⟩) := by
      simp +decide [evalform, EvalFuel, ParseFormula, ParseValue, OpLoop, SkipWhiteSpace,
        SkipWhiteSpaceAux, CharAt, IsWhiteSpaceChar, IsDigitOrDot, IsDigitChar,
        GetNextTokenLength, IsTokenStartChar, IsTokenTailChar, TokenTailLength,
        CopyUppercaseString, GetVariableID, GetVariableIDAux, AssignVariable, SetValueAt,
        ValueAt, LookupFunction, EvaluateFunction, FunctionArgOk, Strtod, StrtodVal,
        StrtodExpVal, StrtodExpEnd, StrtodExpDigitsStart, StrtodFracEnd, StrtodFracCount,
        StrtodIntEnd, CountDigits, DigitsVal, ApplyMinus, ApplyCriterion, ApplyDivide,
        OperatorOfChar, MAXNUMBERVAR, MAXTOKENLENGTH, DEFAULT_RETURN, operator_t.rank]
    rw [h, h8, h64]

/-- C1 witness: the hypotheses on `pow` hold for the exact rational
interpretation, and the two evaluations then give 14 and 64. -/
theorem claim_C1_witness :
    (QFuncs.pow 2 3 = 8 ∧ QFuncs.pow 8 2 = 64) ∧
    evalform QFuncs "2 + 3 * 4".data [] = some (14, ⟨10, ERROR_none, 0, []⟩) ∧
    evalform QFuncs "2 ^ 3 ^ 2".data [] = some (64, ⟨10, ERROR_none, 0, []⟩) :=
  ⟨⟨by with_unfolding_all decide, by with_unfolding_all decide⟩,
    (claim_C1 QFuncs (by with_unfolding_all decide) (by with_unfolding_all decide)).2⟩

/-- C2 is false as stated: `evaluate("1+2)")` terminates with the
unmatched-close-paren error but returns 3, not the default value 0 (the
frame had already accumulated `1+2` when the error was detected). -/
theorem claim_C2_counterexample :
    evalform QFuncs "1+2)".data [] = some (3, ⟨4, ERROR_closeparen, -1, []⟩) ∧
    (3 : ℚ) ≠ 0 ∧ ERROR_closeparen ≠ ERROR_none := by
  refine ⟨?_, by norm_num, by decide⟩
  simp +decide [evalform, EvalFuel, ParseFormula, ParseValue, OpLoop, SkipWhiteSpace,
    SkipWhiteSpaceAux, CharAt, IsWhiteSpaceChar, IsDigitOrDot, IsDigitChar, GetNextTokenLength,
    IsTokenStartChar, IsTokenTailChar, TokenTailLength, CopyUppercaseString, GetVariableID,
    GetVariableIDAux, AssignVariable, SetValueAt, ValueAt, LookupFunction, EvaluateFunction,
    FunctionArgOk, Strtod, StrtodVal, StrtodExpVal, StrtodExpEnd, StrtodExpDigitsStart,
    StrtodFracEnd, StrtodFracCount, StrtodIntEnd, CountDigits, DigitsVal, ApplyMinus,
    ApplyCriterion, ApplyDivide, OperatorOfChar, MAXNUMBERVAR, MAXTOKENLENGTH, DEFAULT_RETURN,
    PVstart, PVminus, PVsigned, PVtokLen, PVtok, PVtokEnd, PVfunParen, ShouldApply,
      PVParenTail, PVFunTail, PVVarTail,
    operator_t.rank]
  norm_num

/-- C2 as amended: once any error code is set, the operator loop of every
enclosing and sibling recursive call stops doing further parsing work and
unwinds at once; the frame that detects the error in its value phase
returns the default 0, but a frame that has already accumulated a value
returns that accumulated value, so `evaluate` can terminate with a nonzero
error code and a nonzero result (`evaluate("1+2)")` = 3 with
unmatched-close-paren; `evaluate("1+@")` = 1 with invalid-operand). -/
theorem claim_C2 {V : Type} [LinearOrderedField V] (F : MathFuncs V) (s : List Char)
    (fuel : Nat) (cur pending : operator_t) (value : V) (vid : Option Nat) (st : PState V)
    (herr : st.err ≠ ERROR_none) (F2 : MathFuncs ℚ) :
    OpLoop F s (fuel + 1) cur pending value vid st = some (value, cur, st) ∧
    evalform F2 "1+2)".data [] = some (3, ⟨4, ERROR_closeparen, -1, []⟩) ∧
    evalform F2 "1+@".data [] = some (1, ⟨2, ERROR_operand, 0, []⟩) := by
  refine ⟨OpLoop_stops F s fuel cur pending value vid st herr, ?_, ?_⟩ <;>
    simp +decide [evalform, EvalFuel, ParseFormula, ParseValue, OpLoop, SkipWhiteSpace,
      SkipWhiteSpaceAux, CharAt, IsWhiteSpaceChar, IsDigitOrDot, IsDigitChar, GetNextTokenLength,
      IsTokenStartChar, IsTokenTailChar, TokenTailLength, CopyUppercaseString, GetVariableID,
      GetVariableIDAux, AssignVariable, SetValueAt, ValueAt, LookupFunction, EvaluateFunction,
      FunctionArgOk, Strtod, StrtodVal, StrtodExpVal, StrtodExpEnd, StrtodExpDigitsStart,
      StrtodFracEnd, StrtodFracCount, StrtodIntEnd, CountDigits, DigitsVal, ApplyMinus,
      ApplyCriterion, ApplyDivide, OperatorOfChar, MAXNUMBERVAR, MAXTOKENLENGTH, DEFAULT_RETURN,
      PVstart, PVminus, PVsigned, PVtokLen, PVtok, PVtokEnd, PVfunParen, ShouldApply,
      PVParenTail, PVFunTail, PVVarTail,
      operator_t.rank]
  all_goals norm_num

/-- C2 witness: the unwinding lemma applied to a state whose error is
already set, together with the two concrete evaluations. -/
theorem claim_C2_witness :
    ERROR_division ≠ ERROR_none ∧
    OpLoop QFuncs "x".data 1 OP_Add OP_BeginLine (7 : ℚ) none ⟨0, ERROR_division, 0, []⟩ =
      some (7, OP_Add, ⟨0, ERROR_division, 0, []⟩) ∧
    evalform QFuncs "1+2)".data [] = some (3, ⟨4, ERROR_closeparen, -1, []⟩) :=
  ⟨by decide,
    (claim_C2 QFuncs "x".data 0 OP_Add OP_BeginLine (7 : ℚ) none ⟨0, ERROR_division, 0, []⟩
      (by decide) QFuncs).1,
    (claim_C2 QFuncs "x".data 0 OP_Add OP_BeginLine (7 : ℚ) none ⟨0, ERROR_division, 0, []⟩
      (by decide) QFuncs).2.1⟩

/-- C4: chained assignment is right-associative: evaluating
`a0 = a1 = a2 = sqrt(2)` against an empty table creates `A0`, `A1`, `A2`,
stores `sqrt(2)` into all three, and returns `sqrt(2)`; in general the
assignment operator applies when its rank is at least the pending
operator's rank, while every other operator applies only when its rank is
strictly greater. -/
theorem claim_C4 (F : MathFuncs ℚ) :
    evalform F "a0 = a1 = a2 = sqrt(2)".data [] =
      some (F.sqrt 2, ⟨23, ERROR_none, 1,
        [("A0".data, F.sqrt 2), ("A1".data, F.sqrt 2), ("A2".data, F.sqrt 2)]⟩) ∧
    (∀ pending, ApplyCriterion OP_Assignment pending =
      decide (pending.rank ≤ OP_Assignment.rank)) ∧
    (∀ cur pending, cur ≠ OP_Assignment →
      ApplyCriterion cur pending = decide (pending.rank < cur.rank)) := by
  refine ⟨?_, fun pending => by simp [ApplyCriterion],
    fun cur pending hne => by simp [ApplyCriterion, hne]⟩
  simp +decide [evalform, EvalFuel, ParseFormula, ParseValue, OpLoop, SkipWhiteSpace,
    SkipWhiteSpaceAux, CharAt, IsWhiteSpaceChar, IsDigitOrDot, IsDigitChar, GetNextTokenLength,
    IsTokenStartChar, IsTokenTailChar, TokenTailLength, CopyUppercaseString, GetVariableID,
    GetVariableIDAux, AssignVariable, SetValueAt, ValueAt, LookupFunction, EvaluateFunction,
    FunctionArgOk, Strtod, StrtodVal, StrtodExpVal, StrtodExpEnd, StrtodExpDigitsStart,
    StrtodFracEnd, StrtodFracCount, StrtodIntEnd, CountDigits, DigitsVal, ApplyMinus,
    ApplyCriterion, ApplyDivide, OperatorOfChar, MAXNUMBERVAR, MAXTOKENLENGTH, DEFAULT_RETURN,
    PVstart, PVminus, PVsigned, PVtokLen, PVtok, PVtokEnd, PVfunParen, ShouldApply,
      PVParenTail, PVFunTail, PVVarTail,
    operator_t.rank]

/-- C4 witness: the chained assignment evaluated with the concrete test
interpretation, and the left-associative criterion instantiated at
`add` against the begin-of-line sentinel. -/
theorem claim_C4_witness :
    evalform QFuncs "a0 = a1 = a2 = sqrt(2)".data [] =
      some (QFuncs.sqrt 2, ⟨23, ERROR_none, 1,
        [("A0".data, QFuncs.sqrt 2), ("A1".data, QFuncs.sqrt 2), ("A2".data, QFuncs.sqrt 2)]⟩) ∧
    ApplyCriterion OP_Add OP_BeginLine = decide (OP_BeginLine.rank < OP_Add.rank) :=
  ⟨(claim_C4 QFuncs).1, (claim_C4 QFuncs).2.2 OP_Add OP_BeginLine (by decide)⟩

/-- C5: for every function of the registry, `EvaluateFunction` signals the
function-parameter-out-of-range error exactly when the function is `LOG`,
`LOG10` or `SQRT` with argument `x ≤ 0`, or `ACOS`/`ASIN` with `x < -1` or
`x ≥ 1` (upper bound exclusive, lower bound inclusive); in that case it
returns the sentinel 0.  For all other arguments, and for `SIN`, `COS`,
`TAN`, `EXP`, `ABS`, `ATAN`, `INT`, no domain error is signalled. -/
theorem claim_C5 {V : Type} [LinearOrderedField V] (F : MathFuncs V) (fn : function_t)
    (hfn : fn ≠ FUNC_err) (x : V) :
    ((EvaluateFunction F fn x ERROR_none).2 = ERROR_parameter ↔
      (((fn = FUNC_log ∨ fn = FUNC_log10 ∨ fn = FUNC_sqrt) ∧ x ≤ 0) ∨
        ((fn = FUNC_acos ∨ fn = FUNC_asin) ∧ (x < -1 ∨ 1 ≤ x)))) ∧
    ((((fn = FUNC_log ∨ fn = FUNC_log10 ∨ fn = FUNC_sqrt) ∧ x ≤ 0) ∨
        ((fn = FUNC_acos ∨ fn = FUNC_asin) ∧ (x < -1 ∨ 1 ≤ x))) →
      EvaluateFunction F fn x ERROR_none = (0, ERROR_parameter)) := by
  cases fn
  case FUNC_err => exact absurd rfl hfn
  case FUNC_log =>
    by_cases hx : x ≤ 0 <;> simp [EvaluateFunction, FunctionArgOk, DEFAULT_RETURN, hx]
  case FUNC_log10 =>
    by_cases hx : x ≤ 0 <;> simp [EvaluateFunction, FunctionArgOk, DEFAULT_RETURN, hx]
  case FUNC_sqrt =>
    by_cases hx : x ≤ 0 <;> simp [EvaluateFunction, FunctionArgOk, DEFAULT_RETURN, hx]
  case FUNC_acos =>
    by_cases hx : x < -1 ∨ 1 ≤ x <;> simp [EvaluateFunction, FunctionArgOk, DEFAULT_RETURN, hx]
  case FUNC_asin =>
    by_cases hx : x < -1 ∨ 1 ≤ x <;> simp [EvaluateFunction, FunctionArgOk, DEFAULT_RETURN, hx]
  all_goals simp [EvaluateFunction, FunctionArgOk, DEFAULT_RETURN]

/-- C5 witness: `SQRT` at the out-of-range argument −1 signals the
parameter error and returns the sentinel 0. -/
theorem claim_C5_witness :
    FUNC_sqrt ≠ FUNC_err ∧
    (((EvaluateFunction QFuncs FUNC_sqrt (-1 : ℚ) ERROR_none).2 = ERROR_parameter ↔
      (((FUNC_sqrt = FUNC_log ∨ FUNC_sqrt = FUNC_log10 ∨ FUNC_sqrt = FUNC_sqrt) ∧ (-1 : ℚ) ≤ 0) ∨
        ((FUNC_sqrt = FUNC_acos ∨ FUNC_sqrt = FUNC_asin) ∧
          ((-1 : ℚ) < -1 ∨ 1 ≤ (-1 : ℚ))))) ∧
    ((((FUNC_sqrt = FUNC_log ∨ FUNC_sqrt = FUNC_log10 ∨ FUNC_sqrt = FUNC_sqrt) ∧ (-1 : ℚ) ≤ 0) ∨
        ((FUNC_sqrt = FUNC_acos ∨ FUNC_sqrt = FUNC_asin) ∧
          ((-1 : ℚ) < -1 ∨ 1 ≤ (-1 : ℚ)))) →
      EvaluateFunction QFuncs FUNC_sqrt (-1 : ℚ) ERROR_none = (0, ERROR_parameter))) :=
  ⟨by decide, claim_C5 QFuncs FUNC_sqrt (by decide) (-1 : ℚ)⟩

/-- C6: a division whose right-hand operand is exactly 0 sets the
division-by-zero error and forces the result of the division to 0, while a
nonzero divisor yields the quotient with the error state untouched; in
particular `evaluate("1/0")` returns 0 with the division error, and
`evaluate("8/2")` returns the quotient 4 with no error. -/
theorem claim_C6 {V : Type} [LinearOrderedField V] (value d : V) (e : errorcode_t)
    (F : MathFuncs ℚ) :
    (d = 0 → ApplyDivide value d e = (0, ERROR_division)) ∧
    (d ≠ 0 → ApplyDivide value d e = (value / d, e)) ∧
    evalform F "1/0".data [] = some (0, ⟨4, ERROR_division, 0, []⟩) ∧
    evalform F "8/2".data [] = some (4, ⟨4, ERROR_none, 0, []⟩) := by
  refine ⟨fun h => by simp [ApplyDivide, h], fun h => by simp [ApplyDivide, h], ?_, ?_⟩ <;>
    simp +decide [evalform, EvalFuel, ParseFormula, ParseValue, OpLoop, SkipWhiteSpace,
      SkipWhiteSpaceAux, CharAt, IsWhiteSpaceChar, IsDigitOrDot, IsDigitChar, GetNextTokenLength,
      IsTokenStartChar, IsTokenTailChar, TokenTailLength, CopyUppercaseString, GetVariableID,
      GetVariableIDAux, AssignVariable, SetValueAt, ValueAt, LookupFunction, EvaluateFunction,
      FunctionArgOk, Strtod, StrtodVal, StrtodExpVal, StrtodExpEnd, StrtodExpDigitsStart,
      StrtodFracEnd, StrtodFracCount, StrtodIntEnd, CountDigits, DigitsVal, ApplyMinus,
      ApplyCriterion, ApplyDivide, OperatorOfChar, MAXNUMBERVAR, MAXTOKENLENGTH, DEFAULT_RETURN,
      PVstart, PVminus, PVsigned, PVtokLen, PVtok, PVtokEnd, PVfunParen, ShouldApply,
      PVParenTail, PVFunTail, PVVarTail,
      operator_t.rank]
  all_goals norm_num

/-- C6 witness: both branches of the division step at concrete inputs,
and the two concrete evaluations. -/
theorem claim_C6_witness :
    ((7 : ℚ) = 0 → ApplyDivide (1 : ℚ) 7 ERROR_none = (0, ERROR_division)) ∧
    ((7 : ℚ) ≠ 0 → ApplyDivide (1 : ℚ) 7 ERROR_none = (1 / 7, ERROR_none)) ∧
    evalform QFuncs "1/0".data [] = some (0, ⟨4, ERROR_division, 0, []⟩) ∧
    evalform QFuncs "8/2".data [] = some (4, ⟨4, ERROR_none, 0, []⟩) :=
  claim_C6 (1 : ℚ) 7 ERROR_none QFuncs

/-- C3 is false as stated: on success the cursor does not point at the
terminating null but one character past it (`evaluate("5")` succeeds with
cursor 2 while the null of the one-character input sits at index 1: the
null is consumed as the end-of-line operator); and on failure the cursor
need not point at the offending character (`evaluate("1/0")` fails with
cursor 4, past the entire three-character input, while the offending `0`
sits at index 2). -/
theorem claim_C3_counterexample :
    (evalform QFuncs "5".data [] = some (5, ⟨2, ERROR_none, 0, []⟩) ∧
      "5".data.length = 1 ∧ (2 : Nat) ≠ 1) ∧
    (evalform QFuncs "1/0".data [] = some (0, ⟨4, ERROR_division, 0, []⟩) ∧
      "1/0".data.length = 3 ∧ (4 : Nat) ≠ 2) := by
  refine ⟨⟨?_, by decide, by decide⟩, ⟨?_, by decide, by decide⟩⟩ <;>
    simp +decide [evalform, EvalFuel, ParseFormula, ParseValue, OpLoop, SkipWhiteSpace,
      SkipWhiteSpaceAux, CharAt, IsWhiteSpaceChar, IsDigitOrDot, IsDigitChar, GetNextTokenLength,
      IsTokenStartChar, IsTokenTailChar, TokenTailLength, CopyUppercaseString, GetVariableID,
      GetVariableIDAux, AssignVariable, SetValueAt, ValueAt, LookupFunction, EvaluateFunction,
      FunctionArgOk, Strtod, StrtodVal, StrtodExpVal, StrtodExpEnd, StrtodExpDigitsStart,
      StrtodFracEnd, StrtodFracCount, StrtodIntEnd, CountDigits, DigitsVal, ApplyMinus,
      ApplyCriterion, ApplyDivide, OperatorOfChar, MAXNUMBERVAR, MAXTOKENLENGTH, DEFAULT_RETURN,
      PVstart, PVminus, PVsigned, PVtokLen, PVtok, PVtokEnd, PVfunParen, ShouldApply,
      PVParenTail, PVFunTail, PVVarTail,
      operator_t.rank]

/-- C7 is false as stated: a 31-character identifier does not yield the
variable-name-too-long error; it evaluates with no error and is entered
into the table (the C check rejects only tokens of `MAXTOKENLENGTH` = 32
or more characters). -/
theorem claim_C7_counterexample :
    evalform QFuncs (List.replicate 31 'a') [] =
      some (0, ⟨32, ERROR_none, 0, [(List.replicate 31 'A', 0)]⟩) ∧
    (List.replicate 31 'a').length = 31 ∧ ERROR_none ≠ ERROR_variable_long := by
  refine ⟨?_, by decide, by decide⟩
  with_unfolding_all decide

/-- C7, amended: the identifier-length check of the value phase fires for
tokens of `MAXTOKENLENGTH` = 32 or more characters, not for 31-character
tokens (see the counterexample): on such a token the parse returns at once
with the variable-name-too-long error and the default value, the cursor at
the token, and the symbol table untouched; consequently every name ever
stored in the table has at most 31 characters — any evaluation started
from a table whose names are at most 31 characters long ends with a table
whose names are at most 31 characters long. -/
theorem claim_C7 {V : Type} [LinearOrderedField V] (F : MathFuncs V) (s : List Char)
    (fuel : Nat) (pending : operator_t) (st : PState V)
    (vars : List (List Char × V)) (v : V) (st' : PState V)
    (hstart : IsTokenStartChar (CharAt s (PVsigned s st.pos)) = true)
    (hlong : MAXTOKENLENGTH ≤ PVtokLen s st.pos)
    (hbound : ∀ q ∈ vars, q.1.length ≤ 31)
    (heval : evalform F s vars = some (v, st')) :
    (ParseFormula F s (fuel + 2) pending st =
        some ((DEFAULT_RETURN : V), pending,
          { st with pos := PVsigned s st.pos, err := ERROR_variable_long }) ∧
      ({ st with pos := PVsigned s st.pos, err := ERROR_variable_long } : PState V).vars =
        st.vars) ∧
    ∀ q ∈ st'.vars, q.1.length ≤ 31 := by
  have hfacts := IsTokenStartChar_facts hstart
  refine ⟨⟨?_, rfl⟩, ?_⟩
  · have h32 : (32 : Nat) ≤ PVtokLen s st.pos := hlong
    have hne : PVtokLen s st.pos ≠ 0 := by omega
    have hpv : ParseValue F s (fuel + 1) st =
        some (Sum.inl { st with pos := PVsigned s st.pos, err := ERROR_variable_long }) := by
      rw [ParseValue]
      rw [if_neg hfacts.2.2.1]
      rw [if_neg (by simp [hfacts.2.2.2])]
      rw [if_neg hne]
      rw [if_pos hlong]
    rw [show fuel + 2 = (fuel + 1) + 1 from rfl, ParseFormula, hpv]
  · obtain ⟨op, hpf⟩ := evalform_inv heval
    have hreach : Reaches (⟨0, ERROR_none, 0, vars⟩ : PState V) st' :=
      (Reaches_run F s (EvalFuel s)).2.1 OP_BeginLine _ _ hpf
    have hset : ∀ (vs : List (List Char × V)) (i : Nat) (vv : V),
        (∀ q ∈ vs, q.1.length ≤ 31) → ∀ q ∈ SetValueAt vs i vv, q.1.length ≤ 31 := by
      intro vs i vv hP q hq
      have hmem : q.1 ∈ (SetValueAt vs i vv).map Prod.fst := List.mem_map.mpr ⟨q, hq, rfl⟩
      rw [SetValueAt_names] at hmem
      obtain ⟨p, hp, he⟩ := List.mem_map.mp hmem
      rw [← he]
      exact hP p hp
    have hnew : ∀ (vs : List (List Char × V)) (nm : List Char),
        (∀ q ∈ vs, q.1.length ≤ 31) → nm.length < MAXTOKENLENGTH →
        vs.length < MAXNUMBERVAR → ∀ q ∈ vs ++ [((nm : List Char), (0 : V))],
          q.1.length ≤ 31 := by
      intro vs nm hP hlen hroom q hq
      rcases List.mem_append.mp hq with hq | hq
      · exact hP q hq
      · have hqe : q = (nm, 0) := List.mem_singleton.mp hq
        subst hqe
        have h32 : nm.length < 32 := hlen
        show nm.length ≤ 31
        omega
    exact Reaches_vars hset hnew hreach hbound

/-- C7 witness: on the 32-character identifier `aaa…a` the hypotheses hold
with the empty table; the parse stops with the variable-name-too-long
error and the table untouched, and every stored name is at most
31 characters long. -/
theorem claim_C7_witness :
    (ParseFormula QFuncs (List.replicate 32 'a') (4 + 2) OP_BeginLine
          ⟨0, ERROR_none, 0, []⟩ =
        some ((0 : ℚ), OP_BeginLine, ⟨0, ERROR_variable_long, 0, []⟩) ∧
      ((⟨0, ERROR_variable_long, 0, []⟩ : PState ℚ)).vars = []) ∧
    ∀ q ∈ ((⟨0, ERROR_variable_long, 0, []⟩ : PState ℚ)).vars, q.1.length ≤ 31 := by
  exact claim_C7 QFuncs (List.replicate 32 'a') 4 OP_BeginLine ⟨0, ERROR_none, 0, []⟩
    [] 0 ⟨0, ERROR_variable_long, 0, []⟩ (by decide) (by decide)
    (by simp) (by with_unfolding_all decide)

/-- C8: the symbol table holds at most `MAXNUMBERVAR` = 128 variables.
`AssignVariable` overwrites an existing name in place at its index; on a
new name it fails exactly when the table already has `MAXNUMBERVAR`
entries and appends otherwise; a bare variable occurrence whose name is
already present reads the stored value in place without mutating the
table; when the value phase meets a fresh variable name with the table at
capacity it returns at once with the variable-table-full error and the
table unchanged; and any evaluation started from a table of at most 128
entries ends with a table of at most 128 entries. -/
theorem claim_C8 {V : Type} [LinearOrderedField V] (F : MathFuncs V)
    (vars : List (List Char × V)) (name : List Char) (v : V)
    (s : List Char) (fuel : Nat) (pending : operator_t) (st : PState V)
    (tvars : List (List Char × V)) (w : V) (st' : PState V)
    (heval : evalform F s tvars = some (w, st'))
    (hcap : tvars.length ≤ MAXNUMBERVAR) :
    (∀ i, GetVariableID vars name = some i →
        AssignVariable vars name v = some (i, SetValueAt vars i v)) ∧
    (GetVariableID vars name = none →
        (MAXNUMBERVAR ≤ vars.length → AssignVariable vars name v = none) ∧
        (vars.length < MAXNUMBERVAR →
          AssignVariable vars name v = some (vars.length, vars ++ [(name, v)]))) ∧
    (∀ (st2 : PState V) (minus : Bool) (tok : List Char) (tokEnd : Nat) (i : Nat),
        GetVariableID st2.vars tok = some i →
        PVVarTail st2 minus tok tokEnd =
          some (Sum.inr (ApplyMinus minus (ValueAt st2.vars i), some i,
            { st2 with pos := tokEnd }))) ∧
    (IsTokenStartChar (CharAt s (PVsigned s st.pos)) = true →
      PVtokLen s st.pos < MAXTOKENLENGTH →
      PVtok s st.pos ≠ "%E".data →
      PVtok s st.pos ≠ "%PI".data →
      LookupFunction (PVtok s st.pos) = FUNC_err →
      GetVariableID st.vars (PVtok s st.pos) = none →
      MAXNUMBERVAR ≤ st.vars.length →
      ParseFormula F s (fuel + 2) pending st =
        some ((DEFAULT_RETURN : V), pending,
          { st with pos := PVtokEnd s st.pos, err := ERROR_variable_full })) ∧
    st'.vars.length ≤ MAXNUMBERVAR := by
  refine ⟨?_, ?_, ?_, ?_, ?_⟩
  · intro i h1
    exact AssignVariable_existing h1 v
  · intro h2
    constructor
    · intro hge
      rw [AssignVariable_new h2 v, if_pos hge]
    · intro hlt
      rw [AssignVariable_new h2 v, if_neg (by omega)]
  · intro st2 minus tok tokEnd i hv
    unfold PVVarTail
    rw [hv]
  · intro hstart hshort htokE htokPI hfn hvar hfull
    have hfacts := IsTokenStartChar_facts hstart
    have hne : PVtokLen s st.pos ≠ 0 := by
      unfold PVtokLen GetNextTokenLength
      rw [if_pos hstart]
      omega
    have hpv : ParseValue F s (fuel + 1) st =
        some (Sum.inl { st with pos := PVtokEnd s st.pos, err := ERROR_variable_full }) := by
      rw [ParseValue]
      rw [if_neg hfacts.2.2.1]
      rw [if_neg (by simp [hfacts.2.2.2])]
      rw [if_neg hne]
      rw [if_neg (by omega)]
      rw [if_neg htokE]
      rw [if_neg htokPI]
      rw [if_neg (not_not_intro hfn)]
      unfold PVVarTail
      rw [hvar]
      rw [AssignVariable_new hvar 0, if_pos hfull]
    rw [show fuel + 2 = (fuel + 1) + 1 from rfl, ParseFormula, hpv]
  · obtain ⟨op, hpf⟩ := evalform_inv heval
    have hreach : Reaches (⟨0, ERROR_none, 0, tvars⟩ : PState V) st' :=
      (Reaches_run F s (EvalFuel s)).2.1 OP_BeginLine _ _ hpf
    have hset : ∀ (vs : List (List Char × V)) (i : Nat) (vv : V),
        vs.length ≤ MAXNUMBERVAR → (SetValueAt vs i vv).length ≤ MAXNUMBERVAR := by
      intro vs i vv hP
      rw [SetValueAt_length]
      exact hP
    have hnew : ∀ (vs : List (List Char × V)) (nm : List Char),
        vs.length ≤ MAXNUMBERVAR → nm.length < MAXTOKENLENGTH →
        vs.length < MAXNUMBERVAR →
        (vs ++ [((nm : List Char), (0 : V))]).length ≤ MAXNUMBERVAR := by
      intro vs nm hP hlen hroom
      rw [List.length_append]
      have h1 : [((nm : List Char), (0 : V))].length = 1 := rfl
      rw [h1]
      omega
    exact Reaches_vars hset hnew hreach hcap

set_option maxRecDepth 10000 in
/-- C8 witness: with the table at its 128-entry capacity, assigning the
fresh name `ZZ` fails with no table change, parsing the formula `zz`
returns the variable-table-full error with the table unchanged, and the
capacity bound holds of the evaluation result. -/
theorem claim_C8_witness :
    AssignVariable (List.replicate 128 (("A".data : List Char), (0 : ℚ))) "ZZ".data 0 =
      none ∧
    ParseFormula QFuncs "zz".data 6 OP_BeginLine
        ⟨0, ERROR_none, 0, List.replicate 128 (("A".data : List Char), (0 : ℚ))⟩ =
      some ((0 : ℚ), OP_BeginLine,
        ⟨2, ERROR_variable_full, 0, List.replicate 128 (("A".data : List Char), (0 : ℚ))⟩) ∧
    ((⟨2, ERROR_variable_full, 0,
        List.replicate 128 (("A".data : List Char), (0 : ℚ))⟩ : PState ℚ)).vars.length ≤
      MAXNUMBERVAR := by
  have h := claim_C8 QFuncs (List.replicate 128 (("A".data : List Char), (0 : ℚ)))
    "ZZ".data 0 "zz".data 4 OP_BeginLine
    ⟨0, ERROR_none, 0, List.replicate 128 (("A".data : List Char), (0 : ℚ))⟩
    (List.replicate 128 (("A".data : List Char), (0 : ℚ))) 0
    ⟨2, ERROR_variable_full, 0, List.replicate 128 (("A".data : List Char), (0 : ℚ))⟩
    (by with_unfolding_all decide) (by decide)
  refine ⟨?_, ?_, ?_⟩
  · exact (h.2.1 (by decide)).1 (by decide)
  · exact h.2.2.2.1 (by decide) (by decide) (by decide) (by decide) (by decide)
      (by decide) (by decide)
  · exact h.2.2.2.2

end Calc
